import Mathlib

/-!
Verification development for the langgraph repository.

The development shallowly embeds the parts of the code that the claims
C1..C10 are about:

* `src/langgraph/serde/jsonplus.py` (`JsonPlusSerializer`): the tagged
  constructor encoding (`_encode_constructor_args`, `_default`), generator
  materialization (`_convert_generators`), `dumps` (with `sort_keys=True`)
  and `loads` (with `object_hook=_reviver`, which resolves the `id` path by
  dynamic `importlib.import_module` plus `getattr`).
* `src/libs/langgraph/langgraph/func/__init__.py` (`entrypoint`).
* The checkpoint-store operations `putWrites` and `list` and the cache-aware
  superstep loop.  Their implementations are not part of the sources under
  `src/` (only their tests are), so those definitions are modelled from the
  spec and marked as such in their doc comments.

Modelling conventions:

* Python values are the inductive `PyValue`; the JSON data model is the
  inductive `JValue`.  `json.dumps(..., sort_keys=True).encode()` emits a
  byte string that is in bijection with the JSON tree in which every object
  has its keys sorted; we therefore represent the emitted byte string by
  that canonical `JValue` tree (`dumps` below returns it), and `loads`
  consumes a `JValue` tree.  Machine integers do not occur (Python ints are
  unbounded), so `Int` is used directly.
* Fallible code returns `Except PyErr`; the constructors of `PyErr` stand
  for the Python exception classes that the code can raise (there is no
  `DecodeError` anywhere in the code).
* Strings are compared by code points, as Python compares `str`.
-/

/-! ### String ordering by code points (as Python compares `str` keys) -/

def charsLt : List Char → List Char → Bool
  | [], [] => false
  | [], _ :: _ => true
  | _ :: _, [] => false
  | a :: as, b :: bs => if a < b then true else if b < a then false else charsLt as bs

def strLt (a b : String) : Bool := charsLt a.data b.data

theorem charsLt_asym : ∀ {as bs : List Char}, charsLt as bs = true → charsLt bs as = false
  | [], [], h => by simp [charsLt] at h
  | [], _ :: _, _ => by simp [charsLt]
  | _ :: _, [], h => by simp [charsLt] at h
  | a :: as, b :: bs, h => by
    simp only [charsLt] at *
    rcases lt_trichotomy a b with hab | hab | hab
    · simp [hab, lt_asymm hab]
    · subst hab
      rw [if_neg (lt_irrefl a)] at h ⊢
      rw [if_neg (lt_irrefl a)] at h ⊢
      exact charsLt_asym h
    · simp [hab, lt_asymm hab] at h

theorem charsLt_conn : ∀ {as bs : List Char}, charsLt as bs = false → charsLt bs as = false →
    as = bs
  | [], [], _, _ => rfl
  | [], _ :: _, h, _ => by simp [charsLt] at h
  | _ :: _, [], _, h => by simp [charsLt] at h
  | a :: as, b :: bs, h1, h2 => by
    simp only [charsLt] at h1 h2
    rcases lt_trichotomy a b with hab | hab | hab
    · simp [hab] at h1
    · subst hab
      rw [if_neg (lt_irrefl a), if_neg (lt_irrefl a)] at h1 h2
      exact congrArg (a :: ·) (charsLt_conn h1 h2)
    · simp [hab] at h2

theorem charsLt_trans : ∀ {as bs cs : List Char}, charsLt as bs = true → charsLt bs cs = true →
    charsLt as cs = true
  | [], _, _ :: _, _, _ => by simp [charsLt]
  | [], _ :: _, [], _, h2 => by simp [charsLt] at h2
  | [], [], [], h1, _ => by simp [charsLt] at h1
  | _ :: _, [], _, h1, _ => by simp [charsLt] at h1
  | _ :: _, _ :: _, [], _, h2 => by simp [charsLt] at h2
  | a :: as, b :: bs, c :: cs, h1, h2 => by
    simp only [charsLt] at *
    rcases lt_trichotomy a b with hab | hab | hab
    · rcases lt_trichotomy b c with hbc | hbc | hbc
      · simp [lt_trans hab hbc]
      · subst hbc; simp [hab]
      · simp [hbc, lt_asymm hbc] at h2
    · subst hab
      rw [if_neg (lt_irrefl a), if_neg (lt_irrefl a)] at h1
      rcases lt_trichotomy a c with hac | hac | hac
      · simp [hac]
      · subst hac
        rw [if_neg (lt_irrefl a), if_neg (lt_irrefl a)] at h2 ⊢
        exact charsLt_trans h1 h2
      · simp [hac, lt_asymm hac] at h2
    · simp [hab, lt_asymm hab] at h1

theorem strLt_asym {a b : String} (h : strLt a b = true) : strLt b a = false := charsLt_asym h

theorem strLt_conn {a b : String} (h1 : strLt a b = false) (h2 : strLt b a = false) : a = b := by
  cases a; cases b
  exact congrArg String.mk (charsLt_conn h1 h2)

theorem strLt_trans {a b c : String} (h1 : strLt a b = true) (h2 : strLt b c = true) :
    strLt a c = true := charsLt_trans h1 h2

/-! ### Association-list utilities (Python `dict` as an ordered key/value list) -/

def lookupKv {α : Type} : List (String × α) → String → Option α
  | [], _ => none
  | p :: l, k => if p.1 = k then some p.2 else lookupKv l k

def hasKey {α : Type} (l : List (String × α)) (k : String) : Bool :=
  l.any (fun p => p.1 = k)

def nodupKeys {α : Type} : List (String × α) → Bool
  | [] => true
  | p :: l => !(hasKey l p.1) && nodupKeys l

/-- Key order used by `json.dumps(..., sort_keys=True)`: entry `a` may precede
entry `b` when `b`'s key is not strictly below `a`'s key. -/
def keyLe {α : Type} (a b : String × α) : Prop := strLt b.1 a.1 = false

instance {α : Type} : DecidableRel (keyLe (α := α)) := fun a b => by
  unfold keyLe; infer_instance

instance {α : Type} : IsTotal (String × α) keyLe where
  total a b := by
    unfold keyLe
    rcases h : strLt b.1 a.1 with _ | _
    · exact Or.inl rfl
    · exact Or.inr (strLt_asym h)

instance {α : Type} : IsTrans (String × α) keyLe where
  trans a b c hab hbc := by
    unfold keyLe at *
    rcases h : strLt c.1 a.1 with _ | _
    · rfl
    · rcases h2 : strLt c.1 b.1 with _ | _
      · rcases h3 : strLt b.1 c.1 with _ | _
        · exact absurd (strLt_conn h2 h3 ▸ h) (by rw [hab]; exact Bool.false_ne_true)
        · exact absurd (strLt_trans h3 h) (by rw [hab]; exact Bool.false_ne_true)
      · exact absurd h2 (by rw [hbc]; exact Bool.false_ne_true)

/-- Sort a key/value list by key, as `sort_keys=True` does. -/
def sortPairs {α : Type} (l : List (String × α)) : List (String × α) :=
  l.insertionSort keyLe

theorem sortPairs_perm {α : Type} (l : List (String × α)) : (sortPairs l).Perm l :=
  l.perm_insertionSort keyLe

theorem sortPairs_sorted {α : Type} (l : List (String × α)) :
    (sortPairs l).Sorted keyLe :=
  List.sorted_insertionSort keyLe l

theorem orderedInsert_map {α β : Type} (f : α → β) (p : String × α) :
    ∀ l : List (String × α),
      List.orderedInsert keyLe (p.1, f p.2) (l.map (fun q => (q.1, f q.2))) =
        (List.orderedInsert keyLe p l).map (fun q => (q.1, f q.2))
  | [] => rfl
  | q :: l => by
    by_cases h : keyLe p q
    · have h2 : keyLe (p.1, f p.2) (q.1, f q.2) := h
      simp only [List.map_cons, List.orderedInsert, if_pos h, if_pos h2, List.map_cons]
    · have h2 : ¬ keyLe (p.1, f p.2) (q.1, f q.2) := h
      simp only [List.map_cons, List.orderedInsert, if_neg h, if_neg h2, List.map_cons,
        orderedInsert_map f p l]

theorem insertionSort_map {α β : Type} (f : α → β) :
    ∀ l : List (String × α),
      List.insertionSort keyLe (l.map (fun q => (q.1, f q.2))) =
        (List.insertionSort keyLe l).map (fun q => (q.1, f q.2))
  | [] => rfl
  | p :: l => by
    simp only [List.map_cons, List.insertionSort, insertionSort_map f l,
      orderedInsert_map f p (l.insertionSort keyLe)]

theorem sortPairs_map {α β : Type} (f : α → β) (l : List (String × α)) :
    sortPairs (l.map (fun q => (q.1, f q.2))) = (sortPairs l).map (fun q => (q.1, f q.2)) :=
  insertionSort_map f l

theorem sortPairs_eq_of_sorted {α : Type} {l : List (String × α)}
    (h : l.Sorted keyLe) : sortPairs l = l :=
  List.Sorted.insertionSort_eq h

theorem nodupKeys_of_perm {α : Type} {l1 l2 : List (String × α)} (h : l1.Perm l2)
    (hnd : nodupKeys l1 = true) : nodupKeys l2 = true := by
  induction h with
  | nil => exact hnd
  | cons p h ih =>
    simp only [nodupKeys, Bool.and_eq_true] at hnd ⊢
    refine ⟨?_, ih hnd.2⟩
    have := hnd.1
    simp only [hasKey, Bool.not_eq_true', List.any_eq_false] at this ⊢
    intro q hq
    exact this q (h.mem_iff.mpr hq)
  | swap p q l =>
    simp only [nodupKeys, hasKey, List.any_cons, Bool.and_eq_true, Bool.not_eq_true',
      Bool.or_eq_false_iff, decide_eq_false_iff_not, List.any_eq_false] at hnd ⊢
    exact ⟨⟨fun h => hnd.1.1 h.symm, hnd.2.1⟩, ⟨hnd.1.2, hnd.2.2⟩⟩
  | trans _ _ ih1 ih2 => exact ih2 (ih1 hnd)

theorem lookupKv_of_perm {α : Type} : ∀ {l1 l2 : List (String × α)}, l1.Perm l2 →
    nodupKeys l1 = true → ∀ k, lookupKv l1 k = lookupKv l2 k := by
  intro l1 l2 h
  induction h with
  | nil => intro _ _; rfl
  | cons p _ ih =>
    intro hnd k
    simp only [nodupKeys, Bool.and_eq_true] at hnd
    simp only [lookupKv]
    by_cases hk : p.1 = k
    · simp [hk]
    · simp only [if_neg hk]
      exact ih hnd.2 k
  | swap p q l =>
    intro hnd k
    simp only [nodupKeys, hasKey, Bool.and_eq_true, Bool.not_eq_true', List.any_cons,
      Bool.or_eq_false_iff, decide_eq_false_iff_not] at hnd
    simp only [lookupKv]
    by_cases h1 : q.1 = k <;> by_cases h2 : p.1 = k
    · exact absurd (h2.trans h1.symm) hnd.1.1
    · simp [h1, h2]
    · simp [h1, h2]
    · simp [h1, h2]
  | trans h12 _ ih1 ih2 =>
    intro hnd k
    exact (ih1 hnd k).trans (ih2 (nodupKeys_of_perm h12 hnd) k)

/-! ### The JSON data model -/

/-- JSON values, the target of `json.dumps` and the source of `json.loads`.
Object entries keep their order; `sortKeys` below produces the canonical
sorted-key form that `sort_keys=True` emits. -/
inductive JValue where
  | null
  | jbool (b : Bool)
  | jint (i : Int)
  | jstr (s : String)
  | arr (xs : List JValue)
  | obj (kvs : List (String × JValue))

mutual

/-- Canonical sorted-key form of a JSON tree: the order in which
`json.dumps(..., sort_keys=True)` writes object entries.  Since rendering a
sorted-key tree to text is injective, this tree represents the emitted
byte string. -/
def sortKeys : JValue → JValue
  | .null => .null
  | .jbool b => .jbool b
  | .jint i => .jint i
  | .jstr s => .jstr s
  | .arr xs => .arr (sortKeysList xs)
  | .obj kvs => .obj (sortPairs (sortKeysKvs kvs))

def sortKeysList : List JValue → List JValue
  | [] => []
  | x :: xs => sortKeys x :: sortKeysList xs

def sortKeysKvs : List (String × JValue) → List (String × JValue)
  | [] => []
  | (k, v) :: kvs => (k, sortKeys v) :: sortKeysKvs kvs

end

theorem sortKeysList_eq_map (xs : List JValue) : sortKeysList xs = xs.map sortKeys := by
  induction xs with
  | nil => rfl
  | cons x xs ih => simp [sortKeysList, ih]

theorem sortKeysKvs_eq_map (kvs : List (String × JValue)) :
    sortKeysKvs kvs = kvs.map (fun p => (p.1, sortKeys p.2)) := by
  induction kvs with
  | nil => rfl
  | cons p kvs ih => cases p; simp [sortKeysKvs, ih]

theorem sortKeysList_jstr_map (l : List String) :
    sortKeysList (l.map JValue.jstr) = l.map JValue.jstr := by
  induction l with
  | nil => rfl
  | cons s l ih => simp [sortKeysList, sortKeys, ih]

/-! ### The Python value universe of `JsonPlusSerializer`

The universe covers the value types the spec calls supported: JSON-native
values (`None`, booleans, integers, strings, lists, string-keyed dicts),
tuples, unique identifiers (`uuid.UUID`, carried by its 32-character
lowercase hex string), timestamps (`datetime.datetime`, abstracted by its
`isoformat()` string, with `fromisoformat` as its inverse), time deltas
(`datetime.timedelta`, carried as the total signed microsecond count, the
normal form behind Python's day/second/microsecond normalization),
`datetime.timezone` (carried by its offset timedelta), sets and frozensets
(carried with their iteration order), enumerated values (`Enum` member of a
class known by its module path, carried with `member.value`), aggregate
record types (`dataclass` instances, fields in declaration order), and
generator objects (abstracted by the sequence of values they yield).
`Serializable`/pydantic branches of `_default` concern langchain classes
outside this repository and are not part of the universe. -/
inductive PyValue where
  | pynone
  | pybool (b : Bool)
  | pyint (i : Int)
  | pystr (s : String)
  | pylist (xs : List PyValue)
  | pytuple (xs : List PyValue)
  | pydict (kvs : List (String × PyValue))
  | pyset (xs : List PyValue)
  | pyfrozenset (xs : List PyValue)
  | pyuuid (hex : String)
  | pydatetime (iso : String)
  | pytimedelta (micros : Int)
  | pytimezone (offsetMicros : Int)
  | pyenum (path : List String) (value : PyValue)
  | pydataclass (path : List String) (fields : List (String × PyValue))
  | pygen (xs : List PyValue)

/-- Kind of a user-defined class reachable by `importlib.import_module` plus
`getattr`: an `Enum` subclass (with its member values) or a `dataclass`
(with its field names in declaration order). -/
inductive PyClassKind where
  | enumClass (values : List PyValue)
  | dataclassClass (fieldNames : List String)

/-- The ambient environment of importable user classes, keyed by
`[*module.split("."), name]`.  `_reviver` resolves the envelope's `id`
against whatever `importlib` can import, so decoding is parameterized by
this environment. -/
structure PyClassDef where
  path : List String
  kind : PyClassKind

abbrev ClassEnv := List PyClassDef

def lookupClass : ClassEnv → List String → Option PyClassKind
  | [], _ => none
  | c :: env, p => if c.path = p then some c.kind else lookupClass env p

/-! ### Encoding (`_encode_constructor_args`, `_default`, `json.dumps`) -/

/-- The tagged-constructor envelope of `_encode_constructor_args`, as the
JSON object that `json.dumps` produces from the returned dict:
`lc`, `type`, `id` (module segments plus class name), `method`, `args`,
`kwargs`. -/
def methodJ : Option String → JValue
  | none => .null
  | some s => .jstr s

def envelopeJ (path : List String) (method : Option String) (args : List JValue)
    (kwargs : List (String × JValue)) : JValue :=
  .obj [("lc", .jint 2), ("type", .jstr "constructor"),
        ("id", .arr (path.map .jstr)),
        ("method", methodJ method),
        ("args", .arr args), ("kwargs", .obj kwargs)]

/-- Day component of Python's `timedelta` normalization (floor division, as
Python's `//` for a positive divisor). -/
def tdDays (t : Int) : Int := t / 86400000000

/-- Second component of Python's `timedelta` normalization. -/
def tdSeconds (t : Int) : Int := (t % 86400000000) / 1000000

/-- Microsecond component of Python's `timedelta` normalization. -/
def tdMicros (t : Int) : Int := (t % 86400000000) % 1000000

/-- Envelope emitted for a `timedelta` by `_default`:
`timedelta(days, seconds, microseconds)`. -/
def tdEnvelope (t : Int) : JValue :=
  envelopeJ ["datetime", "timedelta"] none
    [.jint (tdDays t), .jint (tdSeconds t), .jint (tdMicros t)] []

mutual

/-- Composite effect of `json.dumps(obj, default=_default)` on the JSON data
model, before key sorting: JSON-native values map to their JSON forms
(tuples become arrays), every other supported value is replaced by the
envelope `_default` builds for it, whose `args`/`kwargs` are encoded
recursively.  A generator reaching `_default` raises `TypeError`; encoding
is therefore guarded by `noGenB` in `dumps` below and this total function
is only applied to generator-free values. -/
def encodeVal : PyValue → JValue
  | .pynone => .null
  | .pybool b => .jbool b
  | .pyint i => .jint i
  | .pystr s => .jstr s
  | .pylist xs => .arr (encodeList xs)
  | .pytuple xs => .arr (encodeList xs)
  | .pydict kvs => .obj (encodeKvs kvs)
  | .pyset xs => envelopeJ ["builtins", "set"] none [.arr (encodeList xs)] []
  | .pyfrozenset xs => envelopeJ ["builtins", "frozenset"] none [.arr (encodeList xs)] []
  | .pyuuid h => envelopeJ ["uuid", "UUID"] none [.jstr h] []
  | .pydatetime iso => envelopeJ ["datetime", "datetime"] (some "fromisoformat") [.jstr iso] []
  | .pytimedelta t => tdEnvelope t
  | .pytimezone off => envelopeJ ["datetime", "timezone"] none [tdEnvelope off] []
  | .pyenum p v => envelopeJ p none [encodeVal v] []
  | .pydataclass p fields => envelopeJ p none [] (encodeKvs fields)
  | .pygen _ => .null

def encodeList : List PyValue → List JValue
  | [] => []
  | x :: xs => encodeVal x :: encodeList xs

def encodeKvs : List (String × PyValue) → List (String × JValue)
  | [] => []
  | (k, v) :: kvs => (k, encodeVal v) :: encodeKvs kvs

end

mutual

/-- Whether a value contains no generator anywhere; when it fails,
`json.dumps` raises `TypeError` from `_default`. -/
def noGenB : PyValue → Bool
  | .pynone | .pybool _ | .pyint _ | .pystr _ => true
  | .pylist xs | .pytuple xs | .pyset xs | .pyfrozenset xs => noGenListB xs
  | .pydict kvs => noGenKvsB kvs
  | .pyuuid _ | .pydatetime _ | .pytimedelta _ | .pytimezone _ => true
  | .pyenum _ v => noGenB v
  | .pydataclass _ fields => noGenKvsB fields
  | .pygen _ => false

def noGenListB : List PyValue → Bool
  | [] => true
  | x :: xs => noGenB x && noGenListB xs

def noGenKvsB : List (String × PyValue) → Bool
  | [] => true
  | (_, v) :: kvs => noGenB v && noGenKvsB kvs

end

mutual

/-- The serializer's `_convert_generators`: replaces a generator by the list
of its elements and recurses into dicts, lists and tuples; it does not
recurse into a materialized generator's elements nor into any other
container. -/
def convertGens : PyValue → PyValue
  | .pygen xs => .pylist xs
  | .pydict kvs => .pydict (convertGensKvs kvs)
  | .pylist xs => .pylist (convertGensList xs)
  | .pytuple xs => .pytuple (convertGensList xs)
  | x => x

def convertGensList : List PyValue → List PyValue
  | [] => []
  | x :: xs => convertGens x :: convertGensList xs

def convertGensKvs : List (String × PyValue) → List (String × PyValue)
  | [] => []
  | (k, v) :: kvs => (k, convertGens v) :: convertGensKvs kvs

end

/-- Error values standing for the Python exception classes the serializer
can raise.  `typeErr` is the `TypeError` of `_default` on an unsupported
value, `moduleNotFound` is the `ModuleNotFoundError`/`AttributeError` of the
dynamic import in `_reviver`, `keyErr` is the `KeyError` of a missing
envelope field, `badCall` stands for `TypeError`/`ValueError` raised while
invoking a constructor, and `valueErr` for a constructor rejecting its
argument.  The code defines no `DecodeError`. -/
inductive PyErr where
  | typeErr
  | moduleNotFound (path : List String)
  | keyErr
  | badCall
  | valueErr
  deriving DecidableEq

/-- The serializer's `dumps`: convert generators, then serialize with
`default=_default` and `sort_keys=True`.  The result represents the emitted
byte string by the sorted-key JSON tree; a generator surviving conversion
makes `_default` raise `TypeError`. -/
def dumps (v : PyValue) : Except PyErr JValue :=
  let c := convertGens v
  if noGenB c then .ok (sortKeys (encodeVal c)) else .error .typeErr

/-! ### Decoding (`_reviver`, `json.loads`) -/

/-- Whether a string is a 32-character lowercase hexadecimal string, the
form `UUID.hex` takes and the only form the serializer itself emits. -/
def isHex32Lower (s : String) : Bool :=
  s.data.length = 32 && s.data.all (fun c => c.isDigit || ('a' ≤ c && c ≤ 'f'))

/-- Modelled behaviour of `uuid.UUID(s)` on the canonical-hex domain the
serializer's own output uses: a 32-character lowercase hex string yields the
identifier; other spellings Python would also accept are outside the
modelled domain and conservatively rejected. -/
def mkUUID (method : Option String) (args : List PyValue)
    (kwargs : List (String × PyValue)) : Except PyErr PyValue :=
  match method, args, kwargs with
  | none, [.pystr s], [] => if isHex32Lower s then .ok (.pyuuid s) else .error .valueErr
  | _, _, _ => .error .badCall

/-- Modelled behaviour of `datetime.fromisoformat`: since a timestamp is
abstracted by its `isoformat()` string, parsing that string is the identity
on the abstraction (`fromisoformat(d.isoformat()) == d` in Python). -/
def mkDatetime (method : Option String) (args : List PyValue)
    (kwargs : List (String × PyValue)) : Except PyErr PyValue :=
  match method, args, kwargs with
  | some "fromisoformat", [.pystr s], [] => .ok (.pydatetime s)
  | _, _, _ => .error .badCall

/-- Behaviour of `timedelta(days, seconds, microseconds)`: Python normalizes
the three components into one total; the abstraction stores that total
directly. -/
def mkTimedelta (method : Option String) (args : List PyValue)
    (kwargs : List (String × PyValue)) : Except PyErr PyValue :=
  match method, args, kwargs with
  | none, [.pyint d, .pyint s, .pyint us], [] =>
      .ok (.pytimedelta (d * 86400000000 + s * 1000000 + us))
  | _, _, _ => .error .badCall

/-- Behaviour of `timezone(offset)`: requires a strict offset bound of one
day, as Python does. -/
def mkTimezone (method : Option String) (args : List PyValue)
    (kwargs : List (String × PyValue)) : Except PyErr PyValue :=
  match method, args, kwargs with
  | none, [.pytimedelta t], [] =>
      if -86400000000 < t ∧ t < 86400000000 then .ok (.pytimezone t) else .error .valueErr
  | _, _, _ => .error .badCall

mutual

/-- Python hashability of a value: `set`/`frozenset` construction calls
`hash()` on every element.  Lists, dicts and sets are unhashable; a tuple is
hashable exactly when all its elements are; a frozenset's elements are
hashable by construction; a default `@dataclass` instance (`eq=True,
frozen=False`) has `__hash__ = None` and is unhashable; enum members,
generators and the atomic types hash by value or identity. -/
def hashB : PyValue → Bool
  | .pynone | .pybool _ | .pyint _ | .pystr _ => true
  | .pylist _ => false
  | .pytuple xs => hashListB xs
  | .pydict _ => false
  | .pyset _ => false
  | .pyfrozenset xs => hashListB xs
  | .pyuuid _ => true
  | .pydatetime _ => true
  | .pytimedelta _ => true
  | .pytimezone _ => true
  | .pyenum _ _ => true
  | .pydataclass _ _ => false
  | .pygen _ => true

def hashListB : List PyValue → Bool
  | [] => true
  | x :: xs => hashB x && hashListB xs

end

/-- Behaviour of `set(iterable)` / `frozenset(iterable)`: inserting the
elements hashes each one, so an unhashable element (for instance a list,
which is what a persisted tuple decodes to) raises `TypeError`. -/
def mkSetLike (frozen : Bool) (method : Option String) (args : List PyValue)
    (kwargs : List (String × PyValue)) : Except PyErr PyValue :=
  match method, args, kwargs with
  | none, [.pylist xs], [] =>
      if hashListB xs then .ok (if frozen then .pyfrozenset xs else .pyset xs)
      else .error .typeErr
  | _, _, _ => .error .badCall

mutual

/-- Structural equality test used to model `Enum` member lookup by value. -/
def pyBEq : PyValue → PyValue → Bool
  | .pynone, .pynone => true
  | .pybool a, .pybool b => a == b
  | .pyint a, .pyint b => a == b
  | .pystr a, .pystr b => a == b
  | .pylist xs, .pylist ys => pyBEqList xs ys
  | .pytuple xs, .pytuple ys => pyBEqList xs ys
  | .pydict xs, .pydict ys => pyBEqKvs xs ys
  | .pyset xs, .pyset ys => pyBEqList xs ys
  | .pyfrozenset xs, .pyfrozenset ys => pyBEqList xs ys
  | .pyuuid a, .pyuuid b => a == b
  | .pydatetime a, .pydatetime b => a == b
  | .pytimedelta a, .pytimedelta b => a == b
  | .pytimezone a, .pytimezone b => a == b
  | .pyenum p v, .pyenum q w => p == q && pyBEq v w
  | .pydataclass p xs, .pydataclass q ys => p == q && pyBEqKvs xs ys
  | .pygen xs, .pygen ys => pyBEqList xs ys
  | _, _ => false

def pyBEqList : List PyValue → List PyValue → Bool
  | [], [] => true
  | x :: xs, y :: ys => pyBEq x y && pyBEqList xs ys
  | _, _ => false

def pyBEqKvs : List (String × PyValue) → List (String × PyValue) → Bool
  | [], [] => true
  | (k, v) :: xs, (l, w) :: ys => k == l && pyBEq v w && pyBEqKvs xs ys
  | _, _ => false

end

def pyMem (v : PyValue) (l : List PyValue) : Bool := l.any (pyBEq v)

/-- Modelled behaviour of calling an imported `Enum` subclass: `cls(value)`
returns the member whose value equals the argument and raises `ValueError`
otherwise. -/
def mkEnum (path : List String) (values : List PyValue) (method : Option String)
    (args : List PyValue) (kwargs : List (String × PyValue)) : Except PyErr PyValue :=
  match method, args, kwargs with
  | none, [v], [] => if pyMem v values then .ok (.pyenum path v) else .error .valueErr
  | _, _, _ => .error .badCall

/-- Values for the field names, read from the keyword arguments. -/
def fieldValues (kwargs : List (String × PyValue)) : List String → Option (List PyValue)
  | [] => some []
  | f :: fs => do pure ((← lookupKv kwargs f) :: (← fieldValues kwargs fs))

/-- Modelled behaviour of calling an imported `dataclass`:
`cls(**kwargs)` requires exactly the declared fields and builds the instance
with its fields in declaration order. -/
def mkDataclass (path : List String) (fieldNames : List String) (method : Option String)
    (args : List PyValue) (kwargs : List (String × PyValue)) : Except PyErr PyValue :=
  match method, args with
  | none, [] =>
      match fieldValues kwargs fieldNames with
      | some vs =>
          if kwargs.length = fieldNames.length then
            .ok (.pydataclass path (fieldNames.zip vs))
          else .error .badCall
      | none => .error .badCall
  | _, _ => .error .badCall

/-- Resolution and invocation of the constructor named by the envelope's
`id` path, as `_reviver` performs it: `importlib.import_module` followed by
`getattr` finds standard-library classes (the serializer's own built-ins)
and any importable user class; a path that resolves to nothing raises
`ModuleNotFoundError` — there is no registry check and no `DecodeError`. -/
def applyCtor (env : ClassEnv) (path : List String) (method : Option String)
    (args : List PyValue) (kwargs : List (String × PyValue)) : Except PyErr PyValue :=
  if path = ["uuid", "UUID"] then mkUUID method args kwargs
  else if path = ["datetime", "datetime"] then mkDatetime method args kwargs
  else if path = ["datetime", "timedelta"] then mkTimedelta method args kwargs
  else if path = ["datetime", "timezone"] then mkTimezone method args kwargs
  else if path = ["builtins", "set"] then mkSetLike false method args kwargs
  else if path = ["builtins", "frozenset"] then mkSetLike true method args kwargs
  else
    match lookupClass env path with
    | some (.enumClass values) => mkEnum path values method args kwargs
    | some (.dataclassClass fieldNames) => mkDataclass path fieldNames method args kwargs
    | none => .error (.moduleNotFound path)

/-- Module paths of the classes the serializer itself emits envelopes for;
the closest thing the code has to a pre-registered set of decodable types.
The code never consults such a set while decoding. -/
def builtinPaths : List (List String) :=
  [["uuid", "UUID"], ["datetime", "datetime"], ["datetime", "timedelta"],
   ["datetime", "timezone"], ["builtins", "set"], ["builtins", "frozenset"]]

def isBuiltinPath (p : List String) : Bool := builtinPaths.any (fun q => q = p)

/-- Revived form of the `method` entry. -/
def methodP : Option String → PyValue
  | none => .pynone
  | some s => .pystr s

/-- Interpret a revived `id` list as a path of strings (`[*module, name]`
unpacking); a non-string element makes the unpacking meaningless and is
mapped to a call error. -/
def asPath : List PyValue → Option (List String)
  | [] => some []
  | .pystr s :: l => do pure (s :: (← asPath l))
  | _ => none

/-- The serializer's `_reviver`, applied by `json.loads` as `object_hook` to
every decoded object (whose values have already been revived): an object
with `lc == 2`, `type == "constructor"` and a non-`None` `id` is unpacked
and its constructor resolved by dynamic import and invoked; every other
object falls through to the langchain reviver, which returns objects
without langchain markers unchanged (the modelled universe contains no
langchain lc-1 payloads). -/
def reviveDict (env : ClassEnv) (kvs : List (String × PyValue)) : Except PyErr PyValue :=
  match lookupKv kvs "lc", lookupKv kvs "type", lookupKv kvs "id" with
  | some (.pyint 2), some (.pystr "constructor"), some .pynone => .ok (.pydict kvs)
  | some (.pyint 2), some (.pystr "constructor"), some (.pylist ids) =>
      (match asPath ids with
       | some [] => .error .badCall
       | some path =>
          (match lookupKv kvs "method" with
           | none => .error .keyErr
           | some .pynone =>
              (match lookupKv kvs "args", lookupKv kvs "kwargs" with
               | some (.pylist args), some (.pydict kwargs) =>
                  applyCtor env path none args kwargs
               | none, _ => .error .keyErr
               | _, none => .error .keyErr
               | _, _ => .error .badCall)
           | some (.pystr m) =>
              (match lookupKv kvs "args", lookupKv kvs "kwargs" with
               | some (.pylist args), some (.pydict kwargs) =>
                  applyCtor env path (some m) args kwargs
               | none, _ => .error .keyErr
               | _, none => .error .keyErr
               | _, _ => .error .badCall)
           | some _ => .error .badCall)
       | none => .error .badCall)
  | some (.pyint 2), some (.pystr "constructor"), some _ => .error .badCall
  | _, _, _ => .ok (.pydict kvs)

mutual

/-- Effect of `json.loads(data, object_hook=_reviver)` on the JSON data
model: primitives revive to themselves, arrays to lists, and every object
is passed (bottom-up) through `_reviver`. -/
def revive (env : ClassEnv) : JValue → Except PyErr PyValue
  | .null => .ok .pynone
  | .jbool b => .ok (.pybool b)
  | .jint i => .ok (.pyint i)
  | .jstr s => .ok (.pystr s)
  | .arr xs => do pure (.pylist (← reviveList env xs))
  | .obj kvs => do reviveDict env (← reviveKvs env kvs)

def reviveList (env : ClassEnv) : List JValue → Except PyErr (List PyValue)
  | [] => .ok []
  | x :: xs => do pure ((← revive env x) :: (← reviveList env xs))

def reviveKvs (env : ClassEnv) : List (String × JValue) →
    Except PyErr (List (String × PyValue))
  | [] => .ok []
  | (k, v) :: kvs => do pure ((k, (← revive env v)) :: (← reviveKvs env kvs))

end

/-- The serializer's `loads`. -/
def loads (env : ClassEnv) (j : JValue) : Except PyErr PyValue := revive env j

/-- Composition the round-trip law is about: serialize, then deserialize
the emitted bytes. -/
def roundTrip (env : ClassEnv) (v : PyValue) : Except PyErr PyValue :=
  (dumps v).bind (loads env)

/-! ### Structural equality up to dict order, and the tuple coercion -/

mutual

/-- Replace every tuple by the list of its elements.  JSON has no tuple
type: `json.dumps` writes tuples as arrays and `json.loads` reads arrays as
lists, so decoding can only ever return the detupled shape. -/
def detuple : PyValue → PyValue
  | .pynone => .pynone
  | .pybool b => .pybool b
  | .pyint i => .pyint i
  | .pystr s => .pystr s
  | .pylist xs => .pylist (detupleList xs)
  | .pytuple xs => .pylist (detupleList xs)
  | .pydict kvs => .pydict (detupleKvs kvs)
  | .pyset xs => .pyset (detupleList xs)
  | .pyfrozenset xs => .pyfrozenset (detupleList xs)
  | .pyuuid h => .pyuuid h
  | .pydatetime iso => .pydatetime iso
  | .pytimedelta t => .pytimedelta t
  | .pytimezone off => .pytimezone off
  | .pyenum p v => .pyenum p (detuple v)
  | .pydataclass p fields => .pydataclass p (detupleKvs fields)
  | .pygen xs => .pygen (detupleList xs)

def detupleList : List PyValue → List PyValue
  | [] => []
  | x :: xs => detuple x :: detupleList xs

def detupleKvs : List (String × PyValue) → List (String × PyValue)
  | [] => []
  | (k, v) :: kvs => (k, detuple v) :: detupleKvs kvs

end

mutual

/-- Canonical form with every dict's entries sorted by key.  Two values are
structurally equal in Python's sense (`==`, which ignores dict insertion
order) exactly when their canonical forms coincide, for values whose dicts
have no duplicate keys. -/
def canonPy : PyValue → PyValue
  | .pynone => .pynone
  | .pybool b => .pybool b
  | .pyint i => .pyint i
  | .pystr s => .pystr s
  | .pylist xs => .pylist (canonList xs)
  | .pytuple xs => .pytuple (canonList xs)
  | .pydict kvs => .pydict (sortPairs (canonKvs kvs))
  | .pyset xs => .pyset (canonList xs)
  | .pyfrozenset xs => .pyfrozenset (canonList xs)
  | .pyuuid h => .pyuuid h
  | .pydatetime iso => .pydatetime iso
  | .pytimedelta t => .pytimedelta t
  | .pytimezone off => .pytimezone off
  | .pyenum p v => .pyenum p (canonPy v)
  | .pydataclass p fields => .pydataclass p (canonKvs fields)
  | .pygen xs => .pygen (canonList xs)

def canonList : List PyValue → List PyValue
  | [] => []
  | x :: xs => canonPy x :: canonList xs

def canonKvs : List (String × PyValue) → List (String × PyValue)
  | [] => []
  | (k, v) :: kvs => (k, canonPy v) :: canonKvs kvs

end

/-- Structural equality in Python's sense: equality of canonical forms
(dicts compared as unordered key/value mappings, everything else
syntactically; a tuple is never structurally equal to a list). -/
def structEq (a b : PyValue) : Prop := canonPy a = canonPy b

/-- Whether a value is a JSON-primitive Python value, the only shapes `Enum`
member values take in the modelled universe. -/
def primB : PyValue → Bool
  | .pynone | .pybool _ | .pyint _ | .pystr _ => true
  | _ => false

mutual

/-- Well-formedness of a value for the round-trip law, everything a real
Python process guarantees for a value of the supported types: dicts have no
duplicate keys and no key `"lc"` (a raw `"lc"` key would make the decoder
mistake a plain dict for an envelope), set and frozenset elements are
hashable (Python cannot construct the set otherwise), UUID values carry
`UUID.hex` output,
timezone offsets are within Python's one-day bound, enum members and
dataclass instances belong to importable classes (present in the ambient
environment, with paths that do not shadow the serializer's builtins),
enum values are primitives, dataclass fields follow the class declaration,
and no generators occur (a generator is not a supported persisted type). -/
def wfB (env : ClassEnv) : PyValue → Bool
  | .pynone | .pybool _ | .pyint _ | .pystr _ => true
  | .pylist xs | .pytuple xs => wfListB env xs
  | .pyset xs | .pyfrozenset xs => hashListB xs && wfListB env xs
  | .pydict kvs => nodupKeys kvs && !(hasKey kvs "lc") && wfKvsB env kvs
  | .pyuuid h => isHex32Lower h
  | .pydatetime _ => true
  | .pytimedelta _ => true
  | .pytimezone t => decide (-86400000000 < t) && decide (t < 86400000000)
  | .pyenum p v =>
      !(isBuiltinPath p) && !(p.isEmpty) && primB v &&
      (match lookupClass env p with
       | some (.enumClass values) => pyMem v values
       | _ => false)
  | .pydataclass p fields =>
      !(isBuiltinPath p) && !(p.isEmpty) &&
      (match lookupClass env p with
       | some (.dataclassClass fieldNames) => fields.map Prod.fst == fieldNames
       | _ => false) &&
      nodupKeys fields && !(hasKey fields "lc") && wfKvsB env fields
  | .pygen _ => false

def wfListB (env : ClassEnv) : List PyValue → Bool
  | [] => true
  | x :: xs => wfB env x && wfListB env xs

def wfKvsB (env : ClassEnv) : List (String × PyValue) → Bool
  | [] => true
  | (_, v) :: kvs => wfB env v && wfKvsB env kvs

end

mutual

/-- Whether no tuple occurs anywhere in a value. -/
def noTupB : PyValue → Bool
  | .pynone | .pybool _ | .pyint _ | .pystr _ => true
  | .pylist xs | .pyset xs | .pyfrozenset xs | .pygen xs => noTupListB xs
  | .pytuple _ => false
  | .pydict kvs | .pydataclass _ kvs => noTupKvsB kvs
  | .pyuuid _ | .pydatetime _ | .pytimedelta _ | .pytimezone _ => true
  | .pyenum _ v => noTupB v

def noTupListB : List PyValue → Bool
  | [] => true
  | x :: xs => noTupB x && noTupListB xs

def noTupKvsB : List (String × PyValue) → Bool
  | [] => true
  | (_, v) :: kvs => noTupB v && noTupKvsB kvs

end

mutual

/-- Whether no tuple occurs inside any set or frozenset of a value (at any
depth within the elements).  A persisted tuple decodes as a list, which is
unhashable, so a set element containing a tuple anywhere makes the decoder's
`set(...)`/`frozenset(...)` call raise `TypeError`; outside sets tuples
merely decode as lists. -/
def stfB : PyValue → Bool
  | .pynone | .pybool _ | .pyint _ | .pystr _ => true
  | .pylist xs | .pytuple xs | .pygen xs => stfListB xs
  | .pyset xs | .pyfrozenset xs => noTupListB xs
  | .pydict kvs | .pydataclass _ kvs => stfKvsB kvs
  | .pyuuid _ | .pydatetime _ | .pytimedelta _ | .pytimezone _ => true
  | .pyenum _ v => stfB v

def stfListB : List PyValue → Bool
  | [] => true
  | x :: xs => stfB x && stfListB xs

def stfKvsB : List (String × PyValue) → Bool
  | [] => true
  | (_, v) :: kvs => stfB v && stfKvsB kvs

end

/-! ### Claim C1: decoding of unknown constructor paths -/

/--
C1 counterexample.  The claim says decoding resolves `path` only against an
explicit pre-registered type registry and that an envelope whose path names
no pre-registered type fails with a `DecodeError`.  The code instead
resolves the path by free-form dynamic import: for the path
`["evil", "T"]` — which is not among the serializer's built-in constructor
paths — decoding succeeds whenever the ambient import environment can
provide the class (first conjunct), and when it cannot, decoding fails with
a module-lookup error, not a `DecodeError` (the code defines none).
-/
theorem C1_counterexample :
    loads [⟨["evil", "T"], .enumClass [.pyint 0]⟩]
        (envelopeJ ["evil", "T"] none [.jint 0] []) =
      .ok (.pyenum ["evil", "T"] (.pyint 0)) ∧
    isBuiltinPath ["evil", "T"] = false ∧
    loads [] (envelopeJ ["evil", "T"] none [.jint 0] []) =
      .error (.moduleNotFound ["evil", "T"]) :=
  ⟨rfl, rfl, rfl⟩

/--
C1 amended.  Decoding resolves the envelope's `path` by dynamic import
against the ambient environment of importable classes (free-form dynamic
loading, so any importable class can be named and instantiated); a path
that is neither one of the serializer's built-in constructor paths nor
importable raises a module-lookup error (`ModuleNotFoundError`), not a
`DecodeError` — no `DecodeError` and no pre-registered registry exist in
the code.
-/
theorem C1_amended (env : ClassEnv) (path : List String) (method : Option String)
    (args : List PyValue) (kwargs : List (String × PyValue))
    (h1 : isBuiltinPath path = false) (h2 : lookupClass env path = none) :
    applyCtor env path method args kwargs = .error (.moduleNotFound path) := by
  simp only [isBuiltinPath, builtinPaths, List.any_cons, List.any_nil,
    Bool.or_eq_false_iff, decide_eq_false_iff_not] at h1
  obtain ⟨n1, n2, n3, n4, n5, n6, -⟩ := h1
  unfold applyCtor
  rw [if_neg (fun h => n1 h.symm), if_neg (fun h => n2 h.symm),
    if_neg (fun h => n3 h.symm), if_neg (fun h => n4 h.symm),
    if_neg (fun h => n5 h.symm), if_neg (fun h => n6 h.symm), h2]

/-- C1 witness: the amended theorem applied at a concrete unknown path. -/
theorem C1_witness :
    isBuiltinPath ["nonexistent_module", "T"] = false ∧
    lookupClass [] ["nonexistent_module", "T"] = none ∧
    applyCtor [] ["nonexistent_module", "T"] none [] [] =
      .error (.moduleNotFound ["nonexistent_module", "T"]) :=
  ⟨rfl, rfl, C1_amended [] ["nonexistent_module", "T"] none [] [] rfl rfl⟩

/-! ### Claim C7: encoding of unique identifiers -/

/-- Canonical (RFC 4122, `str(uuid)`) string form of an identifier given by
its 32-character hex string: dashes inserted in the 8-4-4-4-12 pattern. -/
def uuidCanonical (h : String) : String :=
  ⟨h.data.take 8 ++ '-' :: ((h.data.drop 8).take 4) ++ '-' :: ((h.data.drop 12).take 4) ++
    '-' :: ((h.data.drop 16).take 4) ++ '-' :: h.data.drop 20⟩

/--
C7 counterexample.  The claim says the envelope's single positional argument
is the identifier's canonical string form.  The code passes `obj.hex`, the
undashed 32-character hex string, which differs from the canonical dashed
form: for the identifier with hex `00112233445566778899aabbccddeeff` the
emitted argument is that hex string, while the canonical form is
`00112233-4455-6677-8899-aabbccddeeff`.
-/
theorem C7_counterexample :
    dumps (.pyuuid "00112233445566778899aabbccddeeff") =
      .ok (.obj [("args", .arr [.jstr "00112233445566778899aabbccddeeff"]),
                 ("id", .arr [.jstr "uuid", .jstr "UUID"]),
                 ("kwargs", .obj []),
                 ("lc", .jint 2),
                 ("method", .null),
                 ("type", .jstr "constructor")]) ∧
    uuidCanonical "00112233445566778899aabbccddeeff" =
      "00112233-4455-6677-8899-aabbccddeeff" ∧
    "00112233445566778899aabbccddeeff" ≠ "00112233-4455-6677-8899-aabbccddeeff" :=
  ⟨rfl, rfl, by decide⟩

/--
C7 amended.  Encoding a unique identifier produces a tagged-constructor
envelope for `uuid.UUID` whose single positional argument is the
identifier's 32-character undashed hexadecimal string (`obj.hex`), not the
canonical dashed form; decoding that envelope reconstructs the identifier.
-/
theorem C7_amended (h : String) (hwf : isHex32Lower h = true) :
    dumps (.pyuuid h) =
      .ok (.obj [("args", .arr [.jstr h]),
                 ("id", .arr [.jstr "uuid", .jstr "UUID"]),
                 ("kwargs", .obj []),
                 ("lc", .jint 2),
                 ("method", .null),
                 ("type", .jstr "constructor")]) ∧
    roundTrip [] (.pyuuid h) = .ok (.pyuuid h) := by
  refine ⟨rfl, ?_⟩
  show (if isHex32Lower h = true then Except.ok (PyValue.pyuuid h)
        else Except.error PyErr.valueErr) = Except.ok (.pyuuid h)
  rw [if_pos hwf]

/-- C7 witness: the amended theorem applied at a concrete identifier. -/
theorem C7_witness :
    isHex32Lower "00112233445566778899aabbccddeeff" = true ∧
    (dumps (.pyuuid "00112233445566778899aabbccddeeff") =
      .ok (.obj [("args", .arr [.jstr "00112233445566778899aabbccddeeff"]),
                 ("id", .arr [.jstr "uuid", .jstr "UUID"]),
                 ("kwargs", .obj []),
                 ("lc", .jint 2),
                 ("method", .null),
                 ("type", .jstr "constructor")]) ∧
     roundTrip [] (.pyuuid "00112233445566778899aabbccddeeff") =
       .ok (.pyuuid "00112233445566778899aabbccddeeff")) :=
  ⟨rfl, C7_amended "00112233445566778899aabbccddeeff" rfl⟩

/-! ### Claim C8: generators are fully materialized before encoding -/

mutual

/-- Modelled from the spec: "Any in-flight lazy/streaming value must be
fully materialized into an ordered sequence before encoding" — the
spec-side replacement of each generator at the top level or nested inside
dicts, lists and tuples by the ordered list of all its elements, written
independently of `_convert_generators` for comparison with it. -/
def specMaterialize : PyValue → PyValue
  | .pygen xs => .pylist xs
  | .pydict kvs => .pydict (specMaterializeKvs kvs)
  | .pylist xs => .pylist (specMaterializeList xs)
  | .pytuple xs => .pytuple (specMaterializeList xs)
  | x => x

def specMaterializeList : List PyValue → List PyValue
  | [] => []
  | x :: xs => specMaterialize x :: specMaterializeList xs

def specMaterializeKvs : List (String × PyValue) → List (String × PyValue)
  | [] => []
  | (k, v) :: kvs => (k, specMaterialize v) :: specMaterializeKvs kvs

end

mutual

theorem specMaterialize_eq : ∀ v, specMaterialize v = convertGens v
  | .pynone => rfl
  | .pybool _ => rfl
  | .pyint _ => rfl
  | .pystr _ => rfl
  | .pylist xs => by rw [specMaterialize, convertGens, specMaterializeList_eq xs]
  | .pytuple xs => by rw [specMaterialize, convertGens, specMaterializeList_eq xs]
  | .pydict kvs => by rw [specMaterialize, convertGens, specMaterializeKvs_eq kvs]
  | .pyset _ => rfl
  | .pyfrozenset _ => rfl
  | .pyuuid _ => rfl
  | .pydatetime _ => rfl
  | .pytimedelta _ => rfl
  | .pytimezone _ => rfl
  | .pyenum _ _ => rfl
  | .pydataclass _ _ => rfl
  | .pygen _ => rfl

theorem specMaterializeList_eq : ∀ xs, specMaterializeList xs = convertGensList xs
  | [] => rfl
  | x :: xs => by rw [specMaterializeList, convertGensList, specMaterialize_eq x,
      specMaterializeList_eq xs]

theorem specMaterializeKvs_eq : ∀ kvs, specMaterializeKvs kvs = convertGensKvs kvs
  | [] => rfl
  | (k, v) :: kvs => by rw [specMaterializeKvs, convertGensKvs, specMaterialize_eq v,
      specMaterializeKvs_eq kvs]

end

mutual

theorem convertGens_id : ∀ v, noGenB v = true → convertGens v = v
  | .pynone, _ => rfl
  | .pybool _, _ => rfl
  | .pyint _, _ => rfl
  | .pystr _, _ => rfl
  | .pylist xs, h => by rw [convertGens, convertGensList_id xs h]
  | .pytuple xs, h => by rw [convertGens, convertGensList_id xs h]
  | .pydict kvs, h => by rw [convertGens, convertGensKvs_id kvs h]
  | .pyset _, _ => rfl
  | .pyfrozenset _, _ => rfl
  | .pyuuid _, _ => rfl
  | .pydatetime _, _ => rfl
  | .pytimedelta _, _ => rfl
  | .pytimezone _, _ => rfl
  | .pyenum _ _, _ => rfl
  | .pydataclass _ _, _ => rfl
  | .pygen _, h => by simp [noGenB] at h

theorem convertGensList_id : ∀ xs, noGenListB xs = true → convertGensList xs = xs
  | [], _ => rfl
  | x :: xs, h => by
    rw [noGenListB, Bool.and_eq_true] at h
    rw [convertGensList, convertGens_id x h.1, convertGensList_id xs h.2]

theorem convertGensKvs_id : ∀ kvs, noGenKvsB kvs = true → convertGensKvs kvs = kvs
  | [], _ => rfl
  | (k, v) :: kvs, h => by
    rw [noGenKvsB, Bool.and_eq_true] at h
    rw [convertGensKvs, convertGens_id v h.1, convertGensKvs_id kvs h.2]

end

mutual

/-- Whether every generator in the value sits at the top level or nested
only inside dicts, lists and tuples — the nesting scope the claim covers —
which amounts to: values yielded by a generator contain no further
generator. -/
def genScopeB : PyValue → Bool
  | .pygen xs => noGenListB xs
  | .pydict kvs => genScopeKvsB kvs
  | .pylist xs => genScopeListB xs
  | .pytuple xs => genScopeListB xs
  | _ => true

def genScopeListB : List PyValue → Bool
  | [] => true
  | x :: xs => genScopeB x && genScopeListB xs

def genScopeKvsB : List (String × PyValue) → Bool
  | [] => true
  | (_, v) :: kvs => genScopeB v && genScopeKvsB kvs

end

mutual

theorem convertGens_idem : ∀ v, genScopeB v = true → convertGens (convertGens v) = convertGens v
  | .pynone, _ => rfl
  | .pybool _, _ => rfl
  | .pyint _, _ => rfl
  | .pystr _, _ => rfl
  | .pylist xs, h => by
    rw [convertGens, convertGens, convertGensList_idem xs h]
  | .pytuple xs, h => by
    rw [convertGens, convertGens, convertGensList_idem xs h]
  | .pydict kvs, h => by
    rw [convertGens, convertGens, convertGensKvs_idem kvs h]
  | .pyset _, _ => rfl
  | .pyfrozenset _, _ => rfl
  | .pyuuid _, _ => rfl
  | .pydatetime _, _ => rfl
  | .pytimedelta _, _ => rfl
  | .pytimezone _, _ => rfl
  | .pyenum _ _, _ => rfl
  | .pydataclass _ _, _ => rfl
  | .pygen xs, h => by
    rw [convertGens, convertGens, convertGensList_id xs h]

theorem convertGensList_idem : ∀ xs, genScopeListB xs = true →
    convertGensList (convertGensList xs) = convertGensList xs
  | [], _ => rfl
  | x :: xs, h => by
    rw [genScopeListB, Bool.and_eq_true] at h
    rw [convertGensList, convertGensList, convertGens_idem x h.1, convertGensList_idem xs h.2]

theorem convertGensKvs_idem : ∀ kvs, genScopeKvsB kvs = true →
    convertGensKvs (convertGensKvs kvs) = convertGensKvs kvs
  | [], _ => rfl
  | (k, v) :: kvs, h => by
    rw [genScopeKvsB, Bool.and_eq_true] at h
    rw [convertGensKvs, convertGensKvs, convertGens_idem v h.1, convertGensKvs_idem kvs h.2]

end

/--
C8: for every value whose generators sit at the top level or nested inside
dicts, lists or tuples, encoding first materializes each generator into the
ordered list of its elements: `dumps` of the value equals `dumps` of the
value with each such generator replaced by the list of all its elements
(the spec-side `specMaterialize`), and no partial encoding is produced —
`dumps` either emits the complete serialization or raises.
-/
theorem C8_materialize (v : PyValue) (h : genScopeB v = true) :
    dumps v = dumps (specMaterialize v) := by
  rw [specMaterialize_eq, dumps, dumps]
  rw [convertGens_idem v h]

/-- C8 witness: the theorem applied to a dict holding a generator. -/
theorem C8_witness :
    genScopeB (.pydict [("k", .pygen [.pyint 1, .pyint 2])]) = true ∧
    dumps (.pydict [("k", .pygen [.pyint 1, .pyint 2])]) =
      dumps (specMaterialize (.pydict [("k", .pygen [.pyint 1, .pyint 2])])) :=
  ⟨rfl, C8_materialize (.pydict [("k", .pygen [.pyint 1, .pyint 2])]) rfl⟩

/-! ### Claim C10: serialization of mappings is insertion-order independent -/

/-- Strict key order on entries. -/
def keyLt {α : Type} (a b : String × α) : Prop := strLt a.1 b.1 = true

instance {α : Type} : IsAntisymm (String × α) (keyLt (α := α)) where
  antisymm a b hab hba := absurd hba (by unfold keyLt at *; rw [strLt_asym hab]; simp)

theorem pairwise_keys_ne {α : Type} : ∀ {l : List (String × α)}, nodupKeys l = true →
    l.Pairwise (fun a b => a.1 ≠ b.1)
  | [], _ => List.Pairwise.nil
  | p :: l, h => by
    rw [nodupKeys, Bool.and_eq_true, Bool.not_eq_true', hasKey, List.any_eq_false] at h
    refine List.Pairwise.cons (fun q hq hiff => ?_) (pairwise_keys_ne h.2)
    exact h.1 q hq (decide_eq_true hiff.symm)

theorem sorted_keyLt_of_sorted_le {α : Type} {l : List (String × α)}
    (hs : l.Sorted keyLe) (hnd : nodupKeys l = true) : l.Sorted keyLt := by
  have hne := pairwise_keys_ne hnd
  refine (hs.and hne).imp ?_
  rintro ⟨a, _⟩ ⟨b, _⟩ ⟨hle, hne2⟩
  unfold keyLe at hle
  unfold keyLt
  rcases h : strLt a b with _ | _
  · exact absurd (strLt_conn h hle) hne2
  · rfl

theorem sortPairs_eq_of_perm {α : Type} {l1 l2 : List (String × α)} (hp : l1.Perm l2)
    (hnd : nodupKeys l1 = true) : sortPairs l1 = sortPairs l2 := by
  have hnd1 : nodupKeys (sortPairs l1) = true :=
    nodupKeys_of_perm (sortPairs_perm l1).symm hnd
  have hnd2 : nodupKeys (sortPairs l2) = true :=
    nodupKeys_of_perm (sortPairs_perm l2).symm (nodupKeys_of_perm hp hnd)
  have hperm : (sortPairs l1).Perm (sortPairs l2) :=
    ((sortPairs_perm l1).trans hp).trans (sortPairs_perm l2).symm
  exact List.eq_of_perm_of_sorted hperm
    (sorted_keyLt_of_sorted_le (sortPairs_sorted l1) hnd1)
    (sorted_keyLt_of_sorted_le (sortPairs_sorted l2) hnd2)

theorem hasKey_map {α β : Type} (g : String × α → String × β)
    (hg : ∀ p, (g p).1 = p.1) (l : List (String × α)) (k : String) :
    hasKey (l.map g) k = hasKey l k := by
  induction l with
  | nil => rfl
  | cons p l ih =>
    unfold hasKey at *
    simp only [List.map_cons, List.any_cons]
    rw [ih, hg p]

theorem nodupKeys_mapg {α β : Type} (g : String × α → String × β)
    (hg : ∀ p, (g p).1 = p.1) (l : List (String × α)) :
    nodupKeys (l.map g) = nodupKeys l := by
  induction l with
  | nil => rfl
  | cons p l ih =>
    simp only [List.map_cons, nodupKeys, hasKey_map g hg, ih, hg p]

theorem convertGensKvs_eq_map (kvs : List (String × PyValue)) :
    convertGensKvs kvs = kvs.map (fun p => (p.1, convertGens p.2)) := by
  induction kvs with
  | nil => rfl
  | cons p kvs ih => cases p; simp [convertGensKvs, ih]

theorem encodeKvs_eq_map (kvs : List (String × PyValue)) :
    encodeKvs kvs = kvs.map (fun p => (p.1, encodeVal p.2)) := by
  induction kvs with
  | nil => rfl
  | cons p kvs ih => cases p; simp [encodeKvs, ih]

theorem encodeList_eq_map (xs : List PyValue) : encodeList xs = xs.map encodeVal := by
  induction xs with
  | nil => rfl
  | cons x xs ih => simp [encodeList, ih]

theorem all_eq_of_perm {α : Type} {l1 l2 : List α} (h : l1.Perm l2) (f : α → Bool) :
    l1.all f = l2.all f := by
  induction h with
  | nil => rfl
  | cons x _ ih => simp only [List.all_cons, ih]
  | swap x y l => cases hx : f x <;> cases hy : f y <;> simp [List.all_cons, hx, hy]
  | trans _ _ ih1 ih2 => exact ih1.trans ih2

theorem noGenKvsB_eq_all (kvs : List (String × PyValue)) :
    noGenKvsB kvs = kvs.all (fun p => noGenB p.2) := by
  induction kvs with
  | nil => rfl
  | cons p kvs ih => cases p; simp [noGenKvsB, List.all_cons, ih]

/--
C10: serialization of mappings is order-independent and deterministic — for
two dictionaries that are equal as key/value mappings (the same entries in
any insertion order, with no duplicate keys), `dumps` produces identical
byte strings, because object keys are sorted during encoding.
-/
theorem C10_dict_order (d1 d2 : List (String × PyValue)) (hp : d1.Perm d2)
    (hnd : nodupKeys d1 = true) : dumps (.pydict d1) = dumps (.pydict d2) := by
  have hmap : (convertGensKvs d1).Perm (convertGensKvs d2) := by
    rw [convertGensKvs_eq_map, convertGensKvs_eq_map]
    exact hp.map _
  have hgen : noGenKvsB (convertGensKvs d1) = noGenKvsB (convertGensKvs d2) := by
    rw [noGenKvsB_eq_all, noGenKvsB_eq_all]
    exact all_eq_of_perm hmap _
  rw [dumps, dumps]
  show (if noGenB (.pydict (convertGensKvs d1)) then _ else _) =
       (if noGenB (.pydict (convertGensKvs d2)) then _ else _)
  rw [noGenB, noGenB, hgen]
  by_cases hg : noGenKvsB (convertGensKvs d2) = true
  · rw [if_pos hg, if_pos hg]
    have hnd1 : nodupKeys (convertGensKvs d1) = true := by
      rw [convertGensKvs_eq_map]
      rw [nodupKeys_mapg (fun p => (p.1, convertGens p.2)) (fun p => rfl)]
      exact hnd
    have heq : sortPairs (sortKeysKvs (encodeKvs (convertGensKvs d1))) =
        sortPairs (sortKeysKvs (encodeKvs (convertGensKvs d2))) := by
      rw [sortKeysKvs_eq_map, sortKeysKvs_eq_map, encodeKvs_eq_map, encodeKvs_eq_map,
        List.map_map, List.map_map]
      have hco : ((fun p : String × JValue => (p.1, sortKeys p.2)) ∘
          fun p : String × PyValue => (p.1, encodeVal p.2)) =
          fun p : String × PyValue => (p.1, sortKeys (encodeVal p.2)) := rfl
      rw [hco]
      refine sortPairs_eq_of_perm (hmap.map _) ?_
      rw [nodupKeys_mapg (fun p : String × PyValue => (p.1, sortKeys (encodeVal p.2)))
        (fun p => rfl)]
      exact hnd1
    show Except.ok (JValue.obj (sortPairs (sortKeysKvs (encodeKvs (convertGensKvs d1))))) = _
    rw [heq]
    rfl
  · rw [if_neg hg, if_neg hg]

/-- C10 witness: the theorem applied to two insertion orders of one mapping. -/
theorem C10_witness :
    ([("b", PyValue.pyint 1), ("a", PyValue.pyint 2)]).Perm
      [("a", PyValue.pyint 2), ("b", PyValue.pyint 1)] ∧
    nodupKeys [("b", PyValue.pyint 1), ("a", PyValue.pyint 2)] = true ∧
    dumps (.pydict [("b", .pyint 1), ("a", .pyint 2)]) =
      dumps (.pydict [("a", .pyint 2), ("b", .pyint 1)]) :=
  ⟨List.Perm.swap _ _ _, rfl,
   C10_dict_order _ _ (List.Perm.swap _ _ _) rfl⟩

/-! ### Claim C2: the round-trip law -/

theorem any_eq_of_perm {α : Type} {l1 l2 : List α} (h : l1.Perm l2) (f : α → Bool) :
    l1.any f = l2.any f := by
  induction h with
  | nil => rfl
  | cons x _ ih => simp only [List.any_cons, ih]
  | swap x y l => cases hx : f x <;> cases hy : f y <;> simp [List.any_cons, hx, hy]
  | trans _ _ ih1 ih2 => exact ih1.trans ih2

theorem lookupKv_none_of_not_hasKey {α : Type} :
    ∀ {l : List (String × α)} {k}, hasKey l k = false → lookupKv l k = none
  | [], _, _ => rfl
  | p :: l, k, h => by
    rw [hasKey, List.any_cons, Bool.or_eq_false_iff, decide_eq_false_iff_not] at h
    rw [lookupKv, if_neg h.1]
    exact lookupKv_none_of_not_hasKey h.2

theorem canonList_eq_map (xs : List PyValue) : canonList xs = xs.map canonPy := by
  induction xs with
  | nil => rfl
  | cons x xs ih => simp [canonList, ih]

theorem detupleList_eq_map (xs : List PyValue) : detupleList xs = xs.map detuple := by
  induction xs with
  | nil => rfl
  | cons x xs ih => simp [detupleList, ih]

theorem canonKvs_eq_map (kvs : List (String × PyValue)) :
    canonKvs kvs = kvs.map (fun p => (p.1, canonPy p.2)) := by
  induction kvs with
  | nil => rfl
  | cons p kvs ih => cases p; simp [canonKvs, ih]

theorem detupleKvs_eq_map (kvs : List (String × PyValue)) :
    detupleKvs kvs = kvs.map (fun p => (p.1, detuple p.2)) := by
  induction kvs with
  | nil => rfl
  | cons p kvs ih => cases p; simp [detupleKvs, ih]

theorem canonDetupleList_eq (xs : List PyValue) :
    canonList (detupleList xs) = xs.map (fun x => canonPy (detuple x)) := by
  rw [detupleList_eq_map, canonList_eq_map, List.map_map]
  rfl

theorem canonDetupleKvs_eq (kvs : List (String × PyValue)) :
    canonKvs (detupleKvs kvs) = kvs.map (fun p => (p.1, canonPy (detuple p.2))) := by
  rw [detupleKvs_eq_map, canonKvs_eq_map, List.map_map]
  rfl

theorem reviveList_of_map (env : ClassEnv) (l : List PyValue) (f : PyValue → JValue)
    (g : PyValue → PyValue) (h : ∀ x ∈ l, revive env (f x) = .ok (g x)) :
    reviveList env (l.map f) = .ok (l.map g) := by
  induction l with
  | nil => rfl
  | cons x l ih =>
    simp only [List.map_cons, reviveList]
    rw [h x (List.mem_cons_self x l), ih (fun y hy => h y (List.mem_cons_of_mem x hy))]
    rfl

theorem reviveKvs_of_map (env : ClassEnv) (l : List (String × PyValue)) (f : PyValue → JValue)
    (g : PyValue → PyValue) (h : ∀ p ∈ l, revive env (f p.2) = .ok (g p.2)) :
    reviveKvs env (l.map (fun p => (p.1, f p.2))) = .ok (l.map (fun p => (p.1, g p.2))) := by
  induction l with
  | nil => rfl
  | cons p l ih =>
    obtain ⟨k, v⟩ := p
    simp only [List.map_cons, reviveKvs]
    rw [h (k, v) (List.mem_cons_self _ l), ih (fun q hq => h q (List.mem_cons_of_mem _ hq))]
    rfl

theorem reviveList_strs (env : ClassEnv) (l : List String) :
    reviveList env (l.map .jstr) = .ok (l.map .pystr) := by
  induction l with
  | nil => rfl
  | cons s l ih =>
    simp only [List.map_cons, reviveList, revive]
    rw [ih]
    rfl

theorem asPath_map (l : List String) : asPath (l.map .pystr) = some l := by
  induction l with
  | nil => rfl
  | cons s l ih =>
    simp only [List.map_cons, asPath]
    rw [ih]
    rfl

theorem reviveDict_plain (env : ClassEnv) {kvs : List (String × PyValue)}
    (h : lookupKv kvs "lc" = none) : reviveDict env kvs = .ok (.pydict kvs) := by
  rw [reviveDict, h]

theorem rt_list_core (env : ClassEnv) (xs : List PyValue)
    (h : ∀ x ∈ xs, revive env (sortKeys (encodeVal x)) = .ok (canonPy (detuple x))) :
    reviveList env (sortKeysList (encodeList xs)) = .ok (canonList (detupleList xs)) := by
  rw [encodeList_eq_map, sortKeysList_eq_map, List.map_map, canonDetupleList_eq]
  exact reviveList_of_map env xs _ _ h

theorem rt_kvs_sorted_core (env : ClassEnv) (kvs : List (String × PyValue))
    (h : ∀ p ∈ sortPairs kvs, revive env (sortKeys (encodeVal p.2)) = .ok (canonPy (detuple p.2))) :
    reviveKvs env (sortPairs (sortKeysKvs (encodeKvs kvs))) =
      .ok (sortPairs (canonKvs (detupleKvs kvs))) := by
  rw [encodeKvs_eq_map, sortKeysKvs_eq_map, List.map_map]
  have hco : ((fun p : String × JValue => (p.1, sortKeys p.2)) ∘
      fun p : String × PyValue => (p.1, encodeVal p.2)) =
      fun p : String × PyValue => (p.1, sortKeys (encodeVal p.2)) := rfl
  rw [hco, sortPairs_map (fun x => sortKeys (encodeVal x)) kvs]
  rw [canonDetupleKvs_eq, sortPairs_map (fun x => canonPy (detuple x)) kvs]
  exact reviveKvs_of_map env (sortPairs kvs) (fun x => sortKeys (encodeVal x))
    (fun x => canonPy (detuple x)) h

theorem sortedEnvelope (path : List String) (m : Option String) (argsJ : List JValue)
    (kwargsJ : List (String × JValue)) :
    sortKeys (envelopeJ path m argsJ kwargsJ) =
      .obj [("args", .arr (sortKeysList argsJ)),
            ("id", .arr (path.map .jstr)),
            ("kwargs", .obj (sortPairs (sortKeysKvs kwargsJ))),
            ("lc", .jint 2),
            ("method", methodJ m),
            ("type", .jstr "constructor")] := by
  cases m <;>
    simp only [envelopeJ, sortKeys, sortKeysKvs, sortKeysList_jstr_map, methodJ] <;>
    rfl

theorem reviveDict_sorted_envelope (env : ClassEnv) (a : String) (ps : List String)
    (mP : Option String) (argsP : List PyValue) (kwargsP : List (String × PyValue)) :
    reviveDict env [("args", .pylist argsP), ("id", .pylist ((a :: ps).map .pystr)),
      ("kwargs", .pydict kwargsP), ("lc", .pyint 2),
      ("method", methodP mP),
      ("type", .pystr "constructor")] =
      applyCtor env (a :: ps) mP argsP kwargsP := by
  have hpath : asPath ((a :: ps).map PyValue.pystr) = some (a :: ps) := asPath_map (a :: ps)
  cases mP with
  | none =>
      show (match asPath ((a :: ps).map PyValue.pystr) with
            | some [] => Except.error PyErr.badCall
            | some path => applyCtor env path none argsP kwargsP
            | none => Except.error PyErr.badCall) =
        applyCtor env (a :: ps) none argsP kwargsP
      rw [hpath]
  | some s =>
      show (match asPath ((a :: ps).map PyValue.pystr) with
            | some [] => Except.error PyErr.badCall
            | some path => applyCtor env path (some s) argsP kwargsP
            | none => Except.error PyErr.badCall) =
        applyCtor env (a :: ps) (some s) argsP kwargsP
      rw [hpath]

theorem reviveKvs_cons (env : ClassEnv) (k : String) (v : JValue)
    (rest : List (String × JValue)) (a : PyValue) (as2 : List (String × PyValue))
    (h1 : revive env v = .ok a) (h2 : reviveKvs env rest = .ok as2) :
    reviveKvs env ((k, v) :: rest) = .ok ((k, a) :: as2) := by
  simp only [reviveKvs]
  rw [h1, h2]
  rfl

theorem reviveEnvelope (env : ClassEnv) (a : String) (ps : List String) (m : Option String)
    (argsJ : List JValue) (kwargsJ : List (String × JValue))
    (argsP : List PyValue) (kwargsP : List (String × PyValue))
    (hargs : reviveList env (sortKeysList argsJ) = .ok argsP)
    (hkw : reviveKvs env (sortPairs (sortKeysKvs kwargsJ)) = .ok kwargsP)
    (hkwlc : lookupKv kwargsP "lc" = none) :
    revive env (sortKeys (envelopeJ (a :: ps) m argsJ kwargsJ)) =
      applyCtor env (a :: ps) m argsP kwargsP := by
  rw [sortedEnvelope]
  have hargs2 : revive env (.arr (sortKeysList argsJ)) = .ok (.pylist argsP) := by
    have he : revive env (.arr (sortKeysList argsJ)) =
        Bind.bind (reviveList env (sortKeysList argsJ)) (fun r => pure (.pylist r)) := rfl
    rw [he, hargs]
    rfl
  have hid2 : revive env (.arr ((a :: ps).map .jstr)) =
      .ok (.pylist ((a :: ps).map .pystr)) := by
    have he : revive env (.arr ((a :: ps).map .jstr)) =
        Bind.bind (reviveList env ((a :: ps).map .jstr)) (fun r => pure (.pylist r)) := rfl
    rw [he, reviveList_strs]
    rfl
  have hkw2 : revive env (.obj (sortPairs (sortKeysKvs kwargsJ))) = .ok (.pydict kwargsP) := by
    have he : revive env (.obj (sortPairs (sortKeysKvs kwargsJ))) =
        Bind.bind (reviveKvs env (sortPairs (sortKeysKvs kwargsJ)))
          (fun r => reviveDict env r) := rfl
    rw [he, hkw]
    exact reviveDict_plain env hkwlc
  have hmeth : revive env (methodJ m) = .ok (methodP m) := by
    cases m <;> rfl
  have hKL : reviveKvs env [("args", .arr (sortKeysList argsJ)),
      ("id", .arr ((a :: ps).map .jstr)),
      ("kwargs", .obj (sortPairs (sortKeysKvs kwargsJ))),
      ("lc", .jint 2),
      ("method", methodJ m),
      ("type", .jstr "constructor")] =
      .ok [("args", .pylist argsP), ("id", .pylist ((a :: ps).map .pystr)),
           ("kwargs", .pydict kwargsP), ("lc", .pyint 2),
           ("method", methodP m),
           ("type", .pystr "constructor")] :=
    reviveKvs_cons env _ _ _ _ _ hargs2 (reviveKvs_cons env _ _ _ _ _ hid2
      (reviveKvs_cons env _ _ _ _ _ hkw2 (reviveKvs_cons env _ _ _ _ _ rfl
        (reviveKvs_cons env _ _ _ _ _ hmeth (reviveKvs_cons env _ _ _ _ _ rfl rfl)))))
  have hobj : revive env (.obj [("args", .arr (sortKeysList argsJ)),
      ("id", .arr ((a :: ps).map .jstr)),
      ("kwargs", .obj (sortPairs (sortKeysKvs kwargsJ))),
      ("lc", .jint 2),
      ("method", methodJ m),
      ("type", .jstr "constructor")]) =
      Bind.bind (reviveKvs env [("args", .arr (sortKeysList argsJ)),
        ("id", .arr ((a :: ps).map .jstr)),
        ("kwargs", .obj (sortPairs (sortKeysKvs kwargsJ))),
        ("lc", .jint 2),
        ("method", methodJ m),
        ("type", .jstr "constructor")]) (fun r => reviveDict env r) := rfl
  rw [hobj, hKL]
  exact reviveDict_sorted_envelope env a ps m argsP kwargsP

theorem applyCtor_not_builtin (env : ClassEnv) (path : List String) (m : Option String)
    (args : List PyValue) (kwargs : List (String × PyValue))
    (h : isBuiltinPath path = false) :
    applyCtor env path m args kwargs =
      (match lookupClass env path with
       | some (.enumClass values) => mkEnum path values m args kwargs
       | some (.dataclassClass fieldNames) => mkDataclass path fieldNames m args kwargs
       | none => .error (.moduleNotFound path)) := by
  simp only [isBuiltinPath, builtinPaths, List.any_cons, List.any_nil,
    Bool.or_eq_false_iff, decide_eq_false_iff_not] at h
  obtain ⟨n1, n2, n3, n4, n5, n6, -⟩ := h
  unfold applyCtor
  rw [if_neg (fun hh => n1 hh.symm), if_neg (fun hh => n2 hh.symm),
    if_neg (fun hh => n3 hh.symm), if_neg (fun hh => n4 hh.symm),
    if_neg (fun hh => n5 hh.symm), if_neg (fun hh => n6 hh.symm)]

theorem fieldValues_congr (l1 l2 : List (String × PyValue)) :
    ∀ (fns : List String), (∀ k ∈ fns, lookupKv l1 k = lookupKv l2 k) →
      fieldValues l1 fns = fieldValues l2 fns
  | [], _ => rfl
  | f :: fns, h => by
    simp only [fieldValues]
    rw [h f (List.mem_cons_self f fns),
      fieldValues_congr l1 l2 fns (fun k hk => h k (List.mem_cons_of_mem f hk))]

theorem fieldValues_self : ∀ (l : List (String × PyValue)), nodupKeys l = true →
    fieldValues l (l.map Prod.fst) = some (l.map Prod.snd)
  | [], _ => rfl
  | p :: l, h => by
    rw [nodupKeys, Bool.and_eq_true, Bool.not_eq_true'] at h
    have hstep : fieldValues (p :: l) (l.map Prod.fst) = fieldValues l (l.map Prod.fst) := by
      apply fieldValues_congr
      intro k hk
      have hne : p.1 ≠ k := by
        rcases List.mem_map.mp hk with ⟨q, hq, rfl⟩
        rw [hasKey, List.any_eq_false] at h
        intro he
        exact h.1 q hq (decide_eq_true he.symm)
      simp only [lookupKv, if_neg hne]
    simp only [List.map_cons, fieldValues, lookupKv, if_pos rfl]
    rw [hstep, fieldValues_self l h.2]
    rfl

theorem zip_fst_snd {α β : Type} : ∀ (l : List (α × β)), (l.map Prod.fst).zip (l.map Prod.snd) = l
  | [] => rfl
  | p :: l => by
    cases p
    simp only [List.map_cons, List.zip_cons_cons, zip_fst_snd l]

theorem td_reconstruct (t : Int) :
    tdDays t * 86400000000 + tdSeconds t * 1000000 + tdMicros t = t := by
  unfold tdDays tdSeconds tdMicros
  omega

theorem prim_detuple {v : PyValue} (h : primB v = true) : detuple v = v := by
  cases v <;> first | rfl | simp [primB] at h

theorem prim_canon {v : PyValue} (h : primB v = true) : canonPy v = v := by
  cases v <;> first | rfl | simp [primB] at h

theorem prim_revive (env : ClassEnv) {v : PyValue} (h : primB v = true) :
    revive env (sortKeys (encodeVal v)) = .ok v := by
  cases v <;> first | rfl | simp [primB] at h

theorem wfListB_mem (env : ClassEnv) :
    ∀ {xs : List PyValue}, wfListB env xs = true → ∀ x ∈ xs, wfB env x = true
  | [], _, x, hx => absurd hx (List.not_mem_nil x)
  | y :: xs, h, x, hx => by
    rw [wfListB, Bool.and_eq_true] at h
    rcases List.mem_cons.mp hx with rfl | hx2
    · exact h.1
    · exact wfListB_mem env h.2 x hx2

theorem wfKvsB_mem (env : ClassEnv) :
    ∀ {kvs : List (String × PyValue)}, wfKvsB env kvs = true → ∀ p ∈ kvs, wfB env p.2 = true
  | [], _, p, hp => absurd hp (List.not_mem_nil p)
  | q :: kvs, h, p, hp => by
    obtain ⟨k, v⟩ := q
    rw [wfKvsB, Bool.and_eq_true] at h
    rcases List.mem_cons.mp hp with rfl | hp2
    · exact h.1
    · exact wfKvsB_mem env h.2 p hp2

theorem stfListB_mem :
    ∀ {xs : List PyValue}, stfListB xs = true → ∀ x ∈ xs, stfB x = true
  | [], _, x, hx => absurd hx (List.not_mem_nil x)
  | y :: xs, h, x, hx => by
    rw [stfListB, Bool.and_eq_true] at h
    rcases List.mem_cons.mp hx with rfl | hx2
    · exact h.1
    · exact stfListB_mem h.2 x hx2

theorem stfKvsB_mem :
    ∀ {kvs : List (String × PyValue)}, stfKvsB kvs = true → ∀ p ∈ kvs, stfB p.2 = true
  | [], _, p, hp => absurd hp (List.not_mem_nil p)
  | q :: kvs, h, p, hp => by
    obtain ⟨k, v⟩ := q
    rw [stfKvsB, Bool.and_eq_true] at h
    rcases List.mem_cons.mp hp with rfl | hp2
    · exact h.1
    · exact stfKvsB_mem h.2 p hp2

theorem noTupListB_mem :
    ∀ {xs : List PyValue}, noTupListB xs = true → ∀ x ∈ xs, noTupB x = true
  | [], _, x, hx => absurd hx (List.not_mem_nil x)
  | y :: xs, h, x, hx => by
    rw [noTupListB, Bool.and_eq_true] at h
    rcases List.mem_cons.mp hx with rfl | hx2
    · exact h.1
    · exact noTupListB_mem h.2 x hx2

mutual

/-- A value with no tuples anywhere in particular has none inside its sets. -/
theorem noTup_stf : ∀ v, noTupB v = true → stfB v = true
  | .pynone, _ => rfl
  | .pybool _, _ => rfl
  | .pyint _, _ => rfl
  | .pystr _, _ => rfl
  | .pylist xs, h => noTupList_stf xs h
  | .pytuple _, h => Bool.noConfusion h
  | .pydict kvs, h => noTupKvs_stf kvs h
  | .pyset _, h => h
  | .pyfrozenset _, h => h
  | .pyuuid _, _ => rfl
  | .pydatetime _, _ => rfl
  | .pytimedelta _, _ => rfl
  | .pytimezone _, _ => rfl
  | .pyenum _ v, h => noTup_stf v h
  | .pydataclass _ kvs, h => noTupKvs_stf kvs h
  | .pygen xs, h => noTupList_stf xs h

theorem noTupList_stf : ∀ xs, noTupListB xs = true → stfListB xs = true
  | [], _ => rfl
  | x :: xs, h => by
    rw [noTupListB, Bool.and_eq_true] at h
    rw [stfListB, noTup_stf x h.1, noTupList_stf xs h.2]
    rfl

theorem noTupKvs_stf : ∀ kvs, noTupKvsB kvs = true → stfKvsB kvs = true
  | [], _ => rfl
  | (k, v) :: kvs, h => by
    rw [noTupKvsB, Bool.and_eq_true] at h
    rw [stfKvsB, noTup_stf v h.1, noTupKvs_stf kvs h.2]
    rfl

end

mutual

/-- A hashable, tuple-free value decodes to a hashable value: the only
supported hashable shapes are atoms, enum members and frozensets of such,
and none of them loses hashability under decoding once tuples (which decode
to unhashable lists) are excluded. -/
theorem hash_canon_detuple : ∀ v, hashB v = true → noTupB v = true →
    hashB (canonPy (detuple v)) = true
  | .pynone, _, _ => rfl
  | .pybool _, _, _ => rfl
  | .pyint _, _, _ => rfl
  | .pystr _, _, _ => rfl
  | .pylist _, h, _ => Bool.noConfusion h
  | .pytuple _, _, hn => Bool.noConfusion hn
  | .pydict _, h, _ => Bool.noConfusion h
  | .pyset _, h, _ => Bool.noConfusion h
  | .pyfrozenset xs, h, hn => by
    show hashListB (canonList (detupleList xs)) = true
    exact hashList_canon_detuple xs h hn
  | .pyuuid _, _, _ => rfl
  | .pydatetime _, _, _ => rfl
  | .pytimedelta _, _, _ => rfl
  | .pytimezone _, _, _ => rfl
  | .pyenum _ _, _, _ => rfl
  | .pydataclass _ _, h, _ => Bool.noConfusion h
  | .pygen _, _, _ => rfl

theorem hashList_canon_detuple : ∀ xs, hashListB xs = true → noTupListB xs = true →
    hashListB (canonList (detupleList xs)) = true
  | [], _, _ => rfl
  | x :: xs, h, hn => by
    rw [hashListB, Bool.and_eq_true] at h
    rw [noTupListB, Bool.and_eq_true] at hn
    rw [detupleList, canonList, hashListB,
      hash_canon_detuple x h.1 hn.1, hashList_canon_detuple xs h.2 hn.2]
    rfl

end

theorem reviveList_single (env : ClassEnv) (x : JValue) (a : PyValue)
    (h : revive env x = .ok a) : reviveList env [x] = .ok [a] := by
  simp only [reviveList]
  rw [h]
  rfl

theorem revive_arr (env : ClassEnv) (xs : List JValue) (rs : List PyValue)
    (h : reviveList env xs = .ok rs) : revive env (.arr xs) = .ok (.pylist rs) := by
  have he : revive env (.arr xs) =
      Bind.bind (reviveList env xs) (fun r => pure (.pylist r)) := rfl
  rw [he, h]
  rfl

theorem lookup_lc_canon_none (kvs : List (String × PyValue)) (hlc : hasKey kvs "lc" = false) :
    lookupKv (sortPairs (canonKvs (detupleKvs kvs))) "lc" = none := by
  apply lookupKv_none_of_not_hasKey
  have h1 : hasKey (sortPairs (canonKvs (detupleKvs kvs))) "lc" =
      hasKey (canonKvs (detupleKvs kvs)) "lc" := any_eq_of_perm (sortPairs_perm _) _
  have h2 : hasKey (canonKvs (detupleKvs kvs)) "lc" = hasKey kvs "lc" := by
    rw [canonDetupleKvs_eq]
    exact hasKey_map (fun p => (p.1, canonPy (detuple p.2))) (fun p => rfl) kvs "lc"
  rw [h1, h2, hlc]

theorem snd_sizeOf_lt_of_mem {p : String × PyValue} {l : List (String × PyValue)}
    (h : p ∈ l) : sizeOf p.2 < sizeOf l := by
  have h1 := List.sizeOf_lt_of_mem h
  obtain ⟨a, b⟩ := p
  simp at h1 ⊢
  omega

/-- Round-trip core: for a well-formed value with no tuple inside a set or
frozenset, reviving its sorted-key serialization yields exactly the
canonical form of its detupled shape. -/
theorem rtP (env : ClassEnv) : ∀ (v : PyValue), wfB env v = true → stfB v = true →
    revive env (sortKeys (encodeVal v)) = .ok (canonPy (detuple v))
  | .pynone, _, _ => rfl
  | .pybool _, _, _ => rfl
  | .pyint _, _, _ => rfl
  | .pystr _, _, _ => rfl
  | .pylist xs, h, hs => by
    have hmem : ∀ x ∈ xs, revive env (sortKeys (encodeVal x)) = .ok (canonPy (detuple x)) :=
      fun x hx => rtP env x (wfListB_mem env h x hx) (stfListB_mem hs x hx)
    have he : revive env (sortKeys (encodeVal (.pylist xs))) =
        Bind.bind (reviveList env (sortKeysList (encodeList xs)))
          (fun r => pure (.pylist r)) := rfl
    rw [he, rt_list_core env xs hmem]
    rfl
  | .pytuple xs, h, hs => by
    have hmem : ∀ x ∈ xs, revive env (sortKeys (encodeVal x)) = .ok (canonPy (detuple x)) :=
      fun x hx => rtP env x (wfListB_mem env h x hx) (stfListB_mem hs x hx)
    have he : revive env (sortKeys (encodeVal (.pytuple xs))) =
        Bind.bind (reviveList env (sortKeysList (encodeList xs)))
          (fun r => pure (.pylist r)) := rfl
    rw [he, rt_list_core env xs hmem]
    rfl
  | .pydict kvs, h, hs => by
    simp only [wfB, Bool.and_eq_true, Bool.not_eq_true'] at h
    obtain ⟨⟨hnd, hlcb⟩, hwf⟩ := h
    have hmem : ∀ p ∈ sortPairs kvs,
        revive env (sortKeys (encodeVal p.2)) = .ok (canonPy (detuple p.2)) :=
      fun p hq => rtP env p.2 (wfKvsB_mem env hwf p ((sortPairs_perm kvs).mem_iff.mp hq))
        (stfKvsB_mem hs p ((sortPairs_perm kvs).mem_iff.mp hq))
    have he : revive env (sortKeys (encodeVal (.pydict kvs))) =
        Bind.bind (reviveKvs env (sortPairs (sortKeysKvs (encodeKvs kvs))))
          (fun r => reviveDict env r) := rfl
    rw [he, rt_kvs_sorted_core env kvs hmem]
    exact reviveDict_plain env (lookup_lc_canon_none kvs hlcb)
  | .pyset xs, h, hs => by
    simp only [wfB, Bool.and_eq_true] at h
    obtain ⟨hh, hw⟩ := h
    have hsl : noTupListB xs = true := hs
    have hmem : ∀ x ∈ xs, revive env (sortKeys (encodeVal x)) = .ok (canonPy (detuple x)) :=
      fun x hx => rtP env x (wfListB_mem env hw x hx)
        (noTup_stf x (noTupListB_mem hsl x hx))
    have hargs : reviveList env (sortKeysList [.arr (encodeList xs)]) =
        .ok [.pylist (canonList (detupleList xs))] :=
      reviveList_single env _ _ (revive_arr env _ _ (rt_list_core env xs hmem))
    have hres := reviveEnvelope env "builtins" ["set"] none [.arr (encodeList xs)] []
      [.pylist (canonList (detupleList xs))] [] hargs rfl rfl
    refine hres.trans ?_
    show (if hashListB (canonList (detupleList xs)) = true
          then Except.ok (PyValue.pyset (canonList (detupleList xs)))
          else Except.error PyErr.typeErr) = _
    rw [if_pos (hashList_canon_detuple xs hh hsl)]
    rfl
  | .pyfrozenset xs, h, hs => by
    simp only [wfB, Bool.and_eq_true] at h
    obtain ⟨hh, hw⟩ := h
    have hsl : noTupListB xs = true := hs
    have hmem : ∀ x ∈ xs, revive env (sortKeys (encodeVal x)) = .ok (canonPy (detuple x)) :=
      fun x hx => rtP env x (wfListB_mem env hw x hx)
        (noTup_stf x (noTupListB_mem hsl x hx))
    have hargs : reviveList env (sortKeysList [.arr (encodeList xs)]) =
        .ok [.pylist (canonList (detupleList xs))] :=
      reviveList_single env _ _ (revive_arr env _ _ (rt_list_core env xs hmem))
    have hres := reviveEnvelope env "builtins" ["frozenset"] none [.arr (encodeList xs)] []
      [.pylist (canonList (detupleList xs))] [] hargs rfl rfl
    refine hres.trans ?_
    show (if hashListB (canonList (detupleList xs)) = true
          then Except.ok (PyValue.pyfrozenset (canonList (detupleList xs)))
          else Except.error PyErr.typeErr) = _
    rw [if_pos (hashList_canon_detuple xs hh hsl)]
    rfl
  | .pyuuid hx, h, _ => by
    have hres := reviveEnvelope env "uuid" ["UUID"] none [.jstr hx] [] [.pystr hx] []
      (reviveList_single env _ _ rfl) rfl rfl
    refine hres.trans ?_
    show (if isHex32Lower hx = true then Except.ok (PyValue.pyuuid hx)
          else Except.error PyErr.valueErr) = _
    have h2 : isHex32Lower hx = true := h
    rw [if_pos h2]
    rfl
  | .pydatetime iso, _, _ => by
    have hres := reviveEnvelope env "datetime" ["datetime"] (some "fromisoformat")
      [.jstr iso] [] [.pystr iso] [] (reviveList_single env _ _ rfl) rfl rfl
    exact hres.trans rfl
  | .pytimedelta t, _, _ => by
    have hres := reviveEnvelope env "datetime" ["timedelta"] none
      [.jint (tdDays t), .jint (tdSeconds t), .jint (tdMicros t)] []
      [.pyint (tdDays t), .pyint (tdSeconds t), .pyint (tdMicros t)] [] rfl rfl rfl
    refine hres.trans ?_
    show Except.ok (PyValue.pytimedelta
        (tdDays t * 86400000000 + tdSeconds t * 1000000 + tdMicros t)) = _
    rw [td_reconstruct]
    rfl
  | .pytimezone t, h, _ => by
    simp only [wfB, Bool.and_eq_true, decide_eq_true_eq] at h
    obtain ⟨h1, h2⟩ := h
    have hinner : revive env (sortKeys (tdEnvelope t)) = .ok (.pytimedelta t) := by
      have hres := reviveEnvelope env "datetime" ["timedelta"] none
        [.jint (tdDays t), .jint (tdSeconds t), .jint (tdMicros t)] []
        [.pyint (tdDays t), .pyint (tdSeconds t), .pyint (tdMicros t)] [] rfl rfl rfl
      refine hres.trans ?_
      show Except.ok (PyValue.pytimedelta
          (tdDays t * 86400000000 + tdSeconds t * 1000000 + tdMicros t)) = _
      rw [td_reconstruct]
    have hargs : reviveList env (sortKeysList [tdEnvelope t]) = .ok [.pytimedelta t] :=
      reviveList_single env _ _ hinner
    have hres := reviveEnvelope env "datetime" ["timezone"] none [tdEnvelope t] []
      [.pytimedelta t] [] hargs rfl rfl
    refine hres.trans ?_
    show (if -86400000000 < t ∧ t < 86400000000 then Except.ok (PyValue.pytimezone t)
          else Except.error PyErr.valueErr) = _
    rw [if_pos (⟨h1, h2⟩ : -86400000000 < t ∧ t < 86400000000)]
    rfl
  | .pyenum p v, h, _ => by
    simp only [wfB, Bool.and_eq_true, Bool.not_eq_true'] at h
    obtain ⟨⟨⟨hnb, hne⟩, hprim⟩, hcls⟩ := h
    cases hlc : lookupClass env p with
    | none => rw [hlc] at hcls; exact absurd hcls (by simp)
    | some k =>
      cases k with
      | dataclassClass fns => rw [hlc] at hcls; exact absurd hcls (by simp)
      | enumClass values =>
        rw [hlc] at hcls
        have hmemv : pyMem v values = true := hcls
        cases p with
        | nil => exact Bool.noConfusion hne
        | cons a ps =>
          have hargs : reviveList env (sortKeysList [encodeVal v]) = .ok [v] :=
            reviveList_single env _ _ (prim_revive env hprim)
          have hres := reviveEnvelope env a ps none [encodeVal v] [] [v] [] hargs rfl rfl
          refine hres.trans ?_
          rw [applyCtor_not_builtin env (a :: ps) none [v] [] hnb, hlc]
          show (if pyMem v values = true then Except.ok (PyValue.pyenum (a :: ps) v)
                else Except.error PyErr.valueErr) = _
          rw [if_pos hmemv]
          show Except.ok (PyValue.pyenum (a :: ps) v) =
            Except.ok (PyValue.pyenum (a :: ps) (canonPy (detuple v)))
          rw [prim_detuple hprim, prim_canon hprim]
  | .pydataclass p fields, h, hs => by
    simp only [wfB, Bool.and_eq_true, Bool.not_eq_true'] at h
    obtain ⟨⟨⟨⟨⟨hnb, hne⟩, hcls⟩, hnd⟩, hlcb⟩, hwf⟩ := h
    cases hlc : lookupClass env p with
    | none => rw [hlc] at hcls; exact absurd hcls (by simp)
    | some k =>
      cases k with
      | enumClass values => rw [hlc] at hcls; exact absurd hcls (by simp)
      | dataclassClass fns =>
        rw [hlc] at hcls
        have hfns : fields.map Prod.fst = fns := by
          have hb : (fields.map Prod.fst == fns) = true := hcls
          exact eq_of_beq hb
        cases p with
        | nil => exact Bool.noConfusion hne
        | cons a ps =>
          have hmem : ∀ q ∈ sortPairs fields,
              revive env (sortKeys (encodeVal q.2)) = .ok (canonPy (detuple q.2)) :=
            fun q hq => rtP env q.2
              (wfKvsB_mem env hwf q ((sortPairs_perm fields).mem_iff.mp hq))
              (stfKvsB_mem hs q ((sortPairs_perm fields).mem_iff.mp hq))
          have hkw := rt_kvs_sorted_core env fields hmem
          have hres := reviveEnvelope env a ps none [] (encodeKvs fields) []
            (sortPairs (canonKvs (detupleKvs fields))) rfl hkw
            (lookup_lc_canon_none fields hlcb)
          refine hres.trans ?_
          rw [applyCtor_not_builtin env (a :: ps) none [] _ hnb, hlc]
          have hnd2 : nodupKeys (canonKvs (detupleKvs fields)) = true := by
            rw [canonDetupleKvs_eq,
              nodupKeys_mapg (fun p => (p.1, canonPy (detuple p.2))) (fun p => rfl)]
            exact hnd
          have hfst : (canonKvs (detupleKvs fields)).map Prod.fst = fns := by
            rw [canonDetupleKvs_eq, List.map_map]
            have hco : (Prod.fst ∘ fun p : String × PyValue =>
                (p.1, canonPy (detuple p.2))) = Prod.fst := rfl
            rw [hco, hfns]
          have hfv : fieldValues (sortPairs (canonKvs (detupleKvs fields))) fns =
              some ((canonKvs (detupleKvs fields)).map Prod.snd) := by
            have hcongr : ∀ k ∈ fns, lookupKv (sortPairs (canonKvs (detupleKvs fields))) k =
                lookupKv (canonKvs (detupleKvs fields)) k := fun k _ =>
              lookupKv_of_perm (sortPairs_perm _)
                (nodupKeys_of_perm (sortPairs_perm _).symm hnd2) k
            rw [fieldValues_congr _ _ fns hcongr, ← hfst]
            exact fieldValues_self _ hnd2
          have hlen : (sortPairs (canonKvs (detupleKvs fields))).length = fns.length := by
            rw [(sortPairs_perm _).length_eq, ← hfst, List.length_map]
          have hzip : fns.zip ((canonKvs (detupleKvs fields)).map Prod.snd) =
              canonKvs (detupleKvs fields) := by
            rw [← hfst]
            exact zip_fst_snd _
          show (match fieldValues (sortPairs (canonKvs (detupleKvs fields))) fns with
                | some vs =>
                    if (sortPairs (canonKvs (detupleKvs fields))).length = fns.length then
                      Except.ok (PyValue.pydataclass (a :: ps) (fns.zip vs))
                    else Except.error PyErr.badCall
                | none => Except.error PyErr.badCall) = _
          rw [hfv]
          show (if (sortPairs (canonKvs (detupleKvs fields))).length = fns.length then
                  Except.ok (PyValue.pydataclass (a :: ps)
                    (fns.zip ((canonKvs (detupleKvs fields)).map Prod.snd)))
                else Except.error PyErr.badCall) = _
          rw [if_pos hlen, hzip]
          rfl
  termination_by v => sizeOf v
  decreasing_by
  all_goals
    (first
      | (have h0 := List.sizeOf_lt_of_mem hx; simp only [PyValue.pylist.sizeOf_spec,
          PyValue.pytuple.sizeOf_spec, PyValue.pyset.sizeOf_spec,
          PyValue.pyfrozenset.sizeOf_spec]; omega)
      | (have h0 := snd_sizeOf_lt_of_mem ((sortPairs_perm _).mem_iff.mp hq);
          simp only [PyValue.pydict.sizeOf_spec, PyValue.pydataclass.sizeOf_spec]; omega))

mutual

theorem canon_idem : ∀ v, canonPy (canonPy v) = canonPy v
  | .pynone => rfl
  | .pybool _ => rfl
  | .pyint _ => rfl
  | .pystr _ => rfl
  | .pylist xs => by rw [canonPy, canonPy, canonList_idem xs]
  | .pytuple xs => by rw [canonPy, canonPy, canonList_idem xs]
  | .pydict kvs => by
    rw [canonPy, canonPy]
    rw [canonKvs_eq_map (sortPairs (canonKvs kvs)), ← sortPairs_map canonPy (canonKvs kvs),
      ← canonKvs_eq_map (canonKvs kvs), canonKvs_idem kvs,
      sortPairs_eq_of_sorted (sortPairs_sorted (canonKvs kvs))]
  | .pyset xs => by rw [canonPy, canonPy, canonList_idem xs]
  | .pyfrozenset xs => by rw [canonPy, canonPy, canonList_idem xs]
  | .pyuuid _ => rfl
  | .pydatetime _ => rfl
  | .pytimedelta _ => rfl
  | .pytimezone _ => rfl
  | .pyenum p v => by rw [canonPy, canonPy, canon_idem v]
  | .pydataclass p fields => by rw [canonPy, canonPy, canonKvs_idem fields]
  | .pygen xs => by rw [canonPy, canonPy, canonList_idem xs]

theorem canonList_idem : ∀ xs, canonList (canonList xs) = canonList xs
  | [] => rfl
  | x :: xs => by rw [canonList, canonList, canon_idem x, canonList_idem xs]

theorem canonKvs_idem : ∀ kvs, canonKvs (canonKvs kvs) = canonKvs kvs
  | [] => rfl
  | (k, v) :: kvs => by rw [canonKvs, canonKvs, canon_idem v, canonKvs_idem kvs]

end

theorem prim_noGen {v : PyValue} (h : primB v = true) : noGenB v = true := by
  cases v <;> first | rfl | simp [primB] at h

mutual

theorem wf_noGen (env : ClassEnv) : ∀ v, wfB env v = true → noGenB v = true
  | .pynone, _ => rfl
  | .pybool _, _ => rfl
  | .pyint _, _ => rfl
  | .pystr _, _ => rfl
  | .pylist xs, h => wfList_noGen env xs h
  | .pytuple xs, h => wfList_noGen env xs h
  | .pydict kvs, h => by
    simp only [wfB, Bool.and_eq_true] at h
    exact wfKvs_noGen env kvs h.2
  | .pyset xs, h => by
    simp only [wfB, Bool.and_eq_true] at h
    exact wfList_noGen env xs h.2
  | .pyfrozenset xs, h => by
    simp only [wfB, Bool.and_eq_true] at h
    exact wfList_noGen env xs h.2
  | .pyuuid _, _ => rfl
  | .pydatetime _, _ => rfl
  | .pytimedelta _, _ => rfl
  | .pytimezone _, _ => rfl
  | .pyenum p v, h => by
    simp only [wfB, Bool.and_eq_true] at h
    show noGenB v = true
    exact prim_noGen h.1.2
  | .pydataclass p fields, h => by
    simp only [wfB, Bool.and_eq_true] at h
    exact wfKvs_noGen env fields h.2
  | .pygen _, h => by simp [wfB] at h

theorem wfList_noGen (env : ClassEnv) : ∀ xs, wfListB env xs = true → noGenListB xs = true
  | [], _ => rfl
  | x :: xs, h => by
    rw [wfListB, Bool.and_eq_true] at h
    rw [noGenListB, wf_noGen env x h.1, wfList_noGen env xs h.2]
    rfl

theorem wfKvs_noGen (env : ClassEnv) : ∀ kvs, wfKvsB env kvs = true → noGenKvsB kvs = true
  | [], _ => rfl
  | (k, v) :: kvs, h => by
    rw [wfKvsB, Bool.and_eq_true] at h
    rw [noGenKvsB, wf_noGen env v h.1, wfKvs_noGen env kvs h.2]
    rfl

end

/--
C2 counterexample.  The claim includes values nested in tuples among the
supported types and asserts `loads(dumps(v))` succeeds and is structurally
equal to `v`.  JSON has no tuple type, which breaks the claim twice.
First, `dumps` writes a tuple as an array and `loads` returns a list, so
the round trip of the tuple `(1,)` yields the list `[1]`, which is not
structurally equal to the tuple (in Python, `(1,) == [1]` is `False`).
Second, the set `{(1,)}` is a well-formed value of the supported types
(a tuple of ints is hashable, so Python constructs the set) and encodes
successfully, but decoding turns the tuple into a list and `set([[1]])`
raises `TypeError: unhashable type`, so the round trip does not even
succeed.
-/
theorem C2_counterexample :
    roundTrip [] (.pytuple [.pyint 1]) = .ok (.pylist [.pyint 1]) ∧
    ¬ structEq (.pylist [.pyint 1]) (.pytuple [.pyint 1]) ∧
    (PyValue.pylist [.pyint 1]) ≠ .pytuple [.pyint 1] ∧
    wfB [] (.pyset [.pytuple [.pyint 1]]) = true ∧
    (∃ j, dumps (.pyset [.pytuple [.pyint 1]]) = .ok j) ∧
    roundTrip [] (.pyset [.pytuple [.pyint 1]]) = .error .typeErr := by
  refine ⟨rfl, fun h => ?_, fun h => ?_, rfl, ⟨_, rfl⟩, rfl⟩
  · rw [structEq] at h
    exact PyValue.noConfusion h
  · exact PyValue.noConfusion h

/--
C2 amended (the round-trip law).  For every well-formed value of the
supported types — unique identifiers, timestamps, time deltas, timezones,
sets, enumerated values, dataclass records and JSON-native values, nested
arbitrarily in dicts, lists and tuples — in which no tuple occurs inside a
set or frozenset, `loads(dumps(v))` succeeds and is structurally equal to
`v` with every tuple decoded as the list of its elements (`detuple v`); in
particular, for tuple-free values the result is structurally equal to `v`
itself.  The set-tuple restriction is necessary: a persisted tuple decodes
as a list, which is unhashable, so rebuilding a set around it raises
`TypeError` (see the counterexample).
-/
theorem C2_roundtrip (env : ClassEnv) (v : PyValue) (h : wfB env v = true)
    (hs : stfB v = true) :
    ∃ w, roundTrip env v = .ok w ∧ structEq w (detuple v) := by
  refine ⟨canonPy (detuple v), ?_, ?_⟩
  · show Except.bind
      (if noGenB (convertGens v) = true then .ok (sortKeys (encodeVal (convertGens v)))
       else .error PyErr.typeErr) (loads env) = .ok (canonPy (detuple v))
    rw [convertGens_id v (wf_noGen env v h), if_pos (wf_noGen env v h)]
    show loads env (sortKeys (encodeVal v)) = _
    exact rtP env v h hs
  · rw [structEq]
    exact canon_idem (detuple v)

/-- C2 witness: the amended round-trip theorem applied to a concrete nested
value (a dict holding a UUID, a set, a timedelta and a list). -/
theorem C2_witness :
    wfB [] (.pydict [("b", .pyset [.pyint 1, .pystr "x"]),
      ("a", .pyuuid "00112233445566778899aabbccddeeff"),
      ("c", .pylist [.pytimedelta (-1), .pynone])]) = true ∧
    stfB (.pydict [("b", .pyset [.pyint 1, .pystr "x"]),
      ("a", .pyuuid "00112233445566778899aabbccddeeff"),
      ("c", .pylist [.pytimedelta (-1), .pynone])]) = true ∧
    (∃ w, roundTrip [] (.pydict [("b", .pyset [.pyint 1, .pystr "x"]),
      ("a", .pyuuid "00112233445566778899aabbccddeeff"),
      ("c", .pylist [.pytimedelta (-1), .pynone])]) = .ok w ∧
      structEq w (detuple (.pydict [("b", .pyset [.pyint 1, .pystr "x"]),
        ("a", .pyuuid "00112233445566778899aabbccddeeff"),
        ("c", .pylist [.pytimedelta (-1), .pynone])]))) :=
  ⟨rfl, rfl, C2_roundtrip [] _ rfl rfl⟩

/-! ### Claim C9: the `entrypoint` decorator
Embedding of `entrypoint` from `src/libs/langgraph/langgraph/func/__init__.py`:
the inner `_imp` inspects the original function's signature, raises
`ValueError` when it has no parameter, and otherwise builds a `Pregel`
graph with an `EphemeralValue(START)` input channel typed by the first
parameter's annotation (or `Any`) and a `LastValue(END)` output channel
typed by the return annotation (or `Any`). -/

/-- A Python type annotation reference: a named annotation or `Any` when
the signature slot is `inspect.Signature.empty`. -/
inductive PyTypeRef where
  | anyType
  | named (s : String)
  deriving DecidableEq

/-- Annotation slot or `Any` (`inspect.Signature.empty` maps to `Any`). -/
def tyOf : Option String → PyTypeRef
  | none => .anyType
  | some s => .named s

/-- A parameter of the decorated function: its name and annotation slot. -/
structure ParamModel where
  name : String
  ann : Option String
  deriving DecidableEq

/-- Kind of the decorated function; generator kinds get the writer-wrapping
treatment and the `"custom"` stream mode. -/
inductive FuncKind where
  | plain
  | genFunc
  | asyncGenFunc
  deriving DecidableEq

/-- The decorated function as `inspect` sees it. -/
structure FuncModel where
  name : String
  params : List ParamModel
  retAnn : Option String
  kind : FuncKind

/-- A channel as `entrypoint` constructs it. -/
inductive ChannelModel where
  | ephemeralValue (ty : PyTypeRef)
  | lastValue (ty : PyTypeRef)
  deriving DecidableEq

/-- The `PregelNode` wiring `entrypoint` builds (triggers, read channels,
and the channels its `ChannelWrite` writer targets). -/
structure NodeModel where
  triggers : List String
  channels : List String
  writeEntries : List String
  deriving DecidableEq

/-- The langgraph constant `START`. -/
def STARTc : String := "__start__"

/-- The langgraph constant `END`. -/
def ENDc : String := "__end__"

/-- The `Pregel` graph object as `entrypoint` constructs it. -/
structure PregelModel where
  nodes : List (String × NodeModel)
  channels : List (String × ChannelModel)
  inputChannels : String
  outputChannels : String
  streamChannels : String
  streamMode : String
  streamEager : Bool

/-- The `entrypoint` decorator's inner `_imp`: raises `ValueError` when the
function has no parameter (`next(iter(sig.parameters.keys()), None)` is
`None`), and otherwise builds the one-node Pregel graph whose `START`
channel is an `EphemeralValue` of the first parameter's annotation (or
`Any`) and whose `END` channel is a `LastValue` of the return annotation
(or `Any`); generator kinds stream in `"custom"` mode, plain functions in
`"updates"` mode. -/
def entrypointImp (f : FuncModel) : Except String PregelModel :=
  match f.params.head? with
  | none => .error "Entrypoint function must have at least one parameter"
  | some p =>
      .ok { nodes := [(f.name,
              { triggers := [STARTc], channels := [STARTc], writeEntries := [ENDc] })]
          , channels := [(STARTc, .ephemeralValue (tyOf p.ann)),
                         (ENDc, .lastValue (tyOf f.retAnn))]
          , inputChannels := STARTc
          , outputChannels := ENDc
          , streamChannels := ENDc
          , streamMode := match f.kind with
              | .plain => "updates"
              | .genFunc => "custom"
              | .asyncGenFunc => "custom"
          , streamEager := true }

/--
C9: applying the entrypoint decorator to a function with zero parameters
raises `ValueError` ("Entrypoint function must have at least one
parameter") before any graph is constructed; for every function with at
least one parameter the decorator returns a graph whose input channel type
is the first parameter's annotation (or `Any` if unannotated) and whose
output channel type is the return annotation (or `Any` if unannotated).
-/
theorem C9_entrypoint (f : FuncModel) :
    (f.params = [] →
      entrypointImp f = .error "Entrypoint function must have at least one parameter") ∧
    (∀ p ps, f.params = p :: ps →
      ∃ g, entrypointImp f = .ok g ∧
        lookupKv g.channels STARTc = some (.ephemeralValue (tyOf p.ann)) ∧
        lookupKv g.channels ENDc = some (.lastValue (tyOf f.retAnn)) ∧
        g.inputChannels = STARTc ∧ g.outputChannels = ENDc) := by
  constructor
  · intro h
    rw [entrypointImp, h]
    rfl
  · intro p ps h
    rw [entrypointImp, h]
    exact ⟨_, rfl, rfl, rfl, rfl, rfl⟩

/-- C9 witness: the theorem applied to a zero-parameter function and to a
one-parameter annotated function. -/
theorem C9_witness :
    entrypointImp ⟨"f0", [], some "int", .plain⟩ =
      .error "Entrypoint function must have at least one parameter" ∧
    (∃ g, entrypointImp ⟨"f1", [⟨"x", some "State"⟩], none, .plain⟩ = .ok g ∧
      lookupKv g.channels STARTc = some (.ephemeralValue (tyOf (some "State"))) ∧
      lookupKv g.channels ENDc = some (.lastValue (tyOf none)) ∧
      g.inputChannels = STARTc ∧ g.outputChannels = ENDc) :=
  ⟨(C9_entrypoint ⟨"f0", [], some "int", .plain⟩).1 rfl,
   (C9_entrypoint ⟨"f1", [⟨"x", some "State"⟩], none, .plain⟩).2 ⟨"x", some "State"⟩ [] rfl⟩

/-! ### Claim C5: `putWrites` is an idempotent upsert
The postgres checkpointer implementation is not under `src/` (only its
tests are), so the store is modelled from the spec, sections 3 and 4.2. -/

/-- Modelled from the spec: PendingWrites are "keyed uniquely by
`(checkpointId, taskId, sequence)`" within a thread and namespace. -/
structure WriteKey where
  threadId : String
  checkpointNs : String
  checkpointId : String
  taskId : String
  seq : Nat
  deriving DecidableEq

/-- A stored pending-write row: its key plus the written channel/value. -/
structure WriteRow where
  key : WriteKey
  channel : String
  value : String
  deriving DecidableEq

abbrev WriteTable := List WriteRow

/-- Key-uniqueness invariant of the writes table (its primary key). -/
def rowKeysNodup (t : WriteTable) : Prop := (t.map (fun r => r.key)).Nodup

/-- Modelled from the spec: upsert of one row — "re-submitting the same
`(taskId, sequence)` overwrites rather than duplicates". -/
def upsertRow (t : WriteTable) (r : WriteRow) : WriteTable :=
  if t.any (fun q => q.key = r.key) then
    t.map (fun q => if q.key = r.key then r else q)
  else t ++ [r]

/-- Rows built from one `putWrites` batch: the writes enumerated with their
position as the `sequence`. -/
def rowsOf (thread ns ckpt task : String) (ws : List (String × String)) : List WriteRow :=
  ws.enum.map (fun iw => ⟨⟨thread, ns, ckpt, task, iw.1⟩, iw.2.1, iw.2.2⟩)

/-- Modelled from the spec: `putWrites(config, writes, taskId)` — "idempotent
upsert of PendingWrites for a given task", upserting each enumerated write
under the key `(thread, namespace, checkpointId, taskId, index)`. -/
def putWrites (t : WriteTable) (thread ns ckpt task : String)
    (ws : List (String × String)) : WriteTable :=
  (rowsOf thread ns ckpt task ws).foldl upsertRow t

theorem upsertRow_keys (t : WriteTable) (r : WriteRow)
    (hpres : t.any (fun q => q.key = r.key) = true) :
    (upsertRow t r).map (fun q => q.key) = t.map (fun q => q.key) := by
  rw [upsertRow, if_pos hpres, List.map_map]
  apply List.map_congr_left
  intro q _
  by_cases h : q.key = r.key
  · simp [h]
  · simp [h]

theorem rowKeysNodup_upsert {t : WriteTable} (r : WriteRow) (h : rowKeysNodup t) :
    rowKeysNodup (upsertRow t r) := by
  rw [upsertRow]
  by_cases hpres : t.any (fun q => q.key = r.key) = true
  · rw [if_pos hpres, rowKeysNodup]
    have := upsertRow_keys t r hpres
    rw [upsertRow, if_pos hpres] at this
    rw [this]
    exact h
  · rw [if_neg hpres, rowKeysNodup, List.map_append]
    rw [List.any_eq_true] at hpres
    push_neg at hpres
    simp only [List.map_cons, List.map_nil]
    rw [List.nodup_append]
    refine ⟨h, List.nodup_singleton _, ?_⟩
    intro k hk
    simp only [List.mem_singleton]
    rcases List.mem_map.mp hk with ⟨q, hq, rfl⟩
    intro he
    exact hpres q hq (by rw [he]; simp)

theorem rowKeysNodup_foldl {t : WriteTable} (rs : List WriteRow) (h : rowKeysNodup t) :
    rowKeysNodup (rs.foldl upsertRow t) := by
  induction rs generalizing t with
  | nil => exact h
  | cons r rs ih => exact ih (rowKeysNodup_upsert r h)

theorem mem_upsertRow_self (t : WriteTable) (r : WriteRow) : r ∈ upsertRow t r := by
  rw [upsertRow]
  by_cases hpres : t.any (fun q => q.key = r.key) = true
  · rw [if_pos hpres]
    rw [List.any_eq_true] at hpres
    obtain ⟨q, hq, hk⟩ := hpres
    refine List.mem_map.mpr ⟨q, hq, ?_⟩
    rw [if_pos (of_decide_eq_true hk)]
  · rw [if_neg hpres]
    exact List.mem_append_right _ (List.mem_singleton.mpr rfl)

theorem mem_upsertRow_of_ne {t : WriteTable} {r0 : WriteRow} (r : WriteRow)
    (h : r0 ∈ t) (hne : r0.key ≠ r.key) : r0 ∈ upsertRow t r := by
  rw [upsertRow]
  by_cases hpres : t.any (fun q => q.key = r.key) = true
  · rw [if_pos hpres]
    refine List.mem_map.mpr ⟨r0, h, ?_⟩
    rw [if_neg hne]
  · rw [if_neg hpres]
    exact List.mem_append_left _ h

theorem mem_foldl_of_key_notin {r0 : WriteRow} :
    ∀ (rs : List WriteRow) (t : WriteTable), r0 ∈ t → (∀ r ∈ rs, r.key ≠ r0.key) →
      r0 ∈ rs.foldl upsertRow t
  | [], _, h, _ => h
  | r :: rs, t, h, hne =>
    mem_foldl_of_key_notin rs (upsertRow t r)
      (mem_upsertRow_of_ne r h (fun he => hne r (List.mem_cons_self r rs) he.symm))
      (fun q hq => hne q (List.mem_cons_of_mem r hq))

theorem mem_foldl_upsert :
    ∀ (rs : List WriteRow) (t : WriteTable), (rs.map (fun r => r.key)).Nodup →
      ∀ r ∈ rs, r ∈ rs.foldl upsertRow t
  | [], _, _, r, hr => absurd hr (List.not_mem_nil r)
  | r1 :: rs, t, hnd, r, hr => by
    rw [List.map_cons, List.nodup_cons] at hnd
    rcases List.mem_cons.mp hr with rfl | hr2
    · exact mem_foldl_of_key_notin rs (upsertRow t r) (mem_upsertRow_self t r)
        (fun q hq he => hnd.1 (he ▸ List.mem_map_of_mem (fun r => r.key) hq))
    · exact mem_foldl_upsert rs (upsertRow t r1) hnd.2 r hr2

theorem upsertRow_of_mem {t : WriteTable} {r : WriteRow} (h : r ∈ t)
    (hnd : rowKeysNodup t) : upsertRow t r = t := by
  rw [upsertRow, if_pos (List.any_eq_true.mpr ⟨r, h, by simp⟩)]
  have hpt : ∀ q ∈ t, (if q.key = r.key then r else q) = q := by
    intro q hq
    by_cases he : q.key = r.key
    · rw [if_pos he]
      exact (List.inj_on_of_nodup_map hnd hq h he).symm
    · rw [if_neg he]
  calc t.map (fun q => if q.key = r.key then r else q) = t.map id :=
        List.map_congr_left (fun q hq => hpt q hq)
    _ = t := List.map_id t

theorem foldl_upsert_of_mem :
    ∀ (rs : List WriteRow) (t : WriteTable), rowKeysNodup t → (∀ r ∈ rs, r ∈ t) →
      rs.foldl upsertRow t = t
  | [], _, _, _ => rfl
  | r :: rs, t, hnd, hmem => by
    rw [List.foldl_cons, upsertRow_of_mem (hmem r (List.mem_cons_self r rs)) hnd]
    exact foldl_upsert_of_mem rs t hnd (fun q hq => hmem q (List.mem_cons_of_mem r hq))

theorem rowsOf_keys_nodup (thread ns ckpt task : String) (ws : List (String × String)) :
    ((rowsOf thread ns ckpt task ws).map (fun r => r.key)).Nodup := by
  have hseq : (((rowsOf thread ns ckpt task ws).map (fun r => r.key)).map
      (fun k => k.seq)) = List.range ws.length := by
    rw [rowsOf, List.map_map, List.map_map]
    have hco : (((fun k : WriteKey => k.seq) ∘ (fun r : WriteRow => r.key)) ∘
        fun iw : Nat × (String × String) =>
          (⟨⟨thread, ns, ckpt, task, iw.1⟩, iw.2.1, iw.2.2⟩ : WriteRow)) = Prod.fst := rfl
    rw [hco, List.enum_map_fst]
  have := List.nodup_range ws.length
  rw [← hseq] at this
  exact this.of_map _

/--
C5: for every store state satisfying the key-uniqueness invariant of the
writes table, every config (thread, namespace, checkpoint id) and every
batch of pending writes with a given taskId, calling `putWrites` twice with
identical `(taskId, sequence)` pairs leaves the store in exactly the same
state as calling it once — the re-submission overwrites (upserts) rather
than appending duplicate PendingWrite rows.
-/
theorem C5_putwrites_idem (t : WriteTable) (thread ns ckpt task : String)
    (ws : List (String × String)) (hnd : rowKeysNodup t) :
    putWrites (putWrites t thread ns ckpt task ws) thread ns ckpt task ws =
      putWrites t thread ns ckpt task ws := by
  apply foldl_upsert_of_mem
  · exact rowKeysNodup_foldl _ hnd
  · exact fun r hr => mem_foldl_upsert _ t (rowsOf_keys_nodup thread ns ckpt task ws) r hr

/-- C5 witness: the idempotence theorem applied to a concrete store and
batch. -/
theorem C5_witness :
    rowKeysNodup [⟨⟨"thread-2", "", "2", "task0", 0⟩, "node0", "x"⟩] ∧
    putWrites (putWrites [⟨⟨"thread-2", "", "2", "task0", 0⟩, "node0", "x"⟩]
        "thread-2" "" "2" "task1" [("node1", "1"), ("node2", "a")])
        "thread-2" "" "2" "task1" [("node1", "1"), ("node2", "a")] =
      putWrites [⟨⟨"thread-2", "", "2", "task0", 0⟩, "node0", "x"⟩]
        "thread-2" "" "2" "task1" [("node1", "1"), ("node2", "a")] :=
  ⟨by unfold rowKeysNodup; decide,
   C5_putwrites_idem [⟨⟨"thread-2", "", "2", "task0", 0⟩, "node0", "x"⟩]
     "thread-2" "" "2" "task1" [("node1", "1"), ("node2", "a")]
     (by unfold rowKeysNodup; decide)⟩

/-! ### Claim C6: `list` filters by exact metadata match
The postgres checkpointer implementation is not under `src/` (only its
tests are), so `list` is modelled from the spec, section 4.2. -/

/-- A stored checkpoint row: its address plus its metadata as a
string-keyed mapping of serialized values (compared by exact equality). -/
structure CkptRow where
  threadId : String
  checkpointNs : String
  checkpointId : String
  metadata : List (String × String)
  deriving DecidableEq

/-- Modelled from the spec: "`filter` matches only checkpoints whose
metadata contains all given key/value pairs (exact equality; missing key
means excluded)". -/
def matchesFilter (flt : List (String × String)) (row : CkptRow) : Bool :=
  flt.all (fun p => lookupKv row.metadata p.1 == some p.2)

/-- Newest-first order on checkpoint rows: ids are lexicographically
sortable and time-ordered, so newest first is descending id order. -/
def newestFirst (a b : CkptRow) : Prop := strLt a.checkpointId b.checkpointId = false

instance : DecidableRel newestFirst := fun a b => by
  unfold newestFirst; infer_instance

/-- Modelled from the spec: `list(config, filter, before, limit)` with
`config = None` (all threads and namespaces in scope), no `before` bound
and no limit — the checkpoints in scope, newest first, filtered by exact
metadata containment. -/
def listCkpts (rows : List CkptRow) (flt : List (String × String)) : List CkptRow :=
  (rows.insertionSort newestFirst).filter (matchesFilter flt)

/--
C6: for every metadata filter f, `list(None, filter=f)` returns exactly
those checkpoints in scope whose metadata contains all key/value pairs of
f under exact equality (a checkpoint missing a filtered key is excluded,
since its lookup yields nothing); in particular
`list(None, filter={"source": "input"})` returns only checkpoints whose
metadata `source` equals `"input"`, and `list(None, filter={})` returns
all checkpoints for the scope (as a permutation, newest first).
-/
theorem C6_filter_law (rows : List CkptRow) (flt : List (String × String)) :
    (∀ r, r ∈ listCkpts rows flt ↔
      (r ∈ rows ∧ ∀ p ∈ flt, lookupKv r.metadata p.1 = some p.2)) ∧
    (listCkpts rows []).Perm rows := by
  constructor
  · intro r
    rw [listCkpts, List.mem_filter]
    constructor
    · rintro ⟨h1, h2⟩
      refine ⟨(rows.perm_insertionSort newestFirst).mem_iff.mp h1, ?_⟩
      intro p hp
      rw [matchesFilter, List.all_eq_true] at h2
      exact eq_of_beq (h2 p hp)
    · rintro ⟨h1, h2⟩
      refine ⟨(rows.perm_insertionSort newestFirst).mem_iff.mpr h1, ?_⟩
      rw [matchesFilter, List.all_eq_true]
      intro p hp
      rw [h2 p hp]
      exact beq_self_eq_true _
  · rw [listCkpts]
    have hall : ∀ r ∈ rows.insertionSort newestFirst, matchesFilter [] r = true :=
      fun r _ => rfl
    rw [List.filter_eq_self.mpr hall]
    exact rows.perm_insertionSort newestFirst

/-! ### Claims C3 and C4: the cache-aware superstep loop
The pregel engine is not under `src/` (only the cache tests are), so the
loop is modelled from the spec: section 4.4 step 1 (cache check — "on hit
the task's prior writes are replayed against the channel write buffer
without invoking the node body") and section 4.5 (the BSP loop), specialized
to the sequential chain graphs of `tests/test_cache.py`, whose supersteps
run exactly one node. -/

/-- The integer channels of the test graphs (`foo`, `bar`, `ra`), each with
LastValue semantics. -/
structure GState where
  foo : Int
  bar : Int
  ra : Int
  deriving DecidableEq

/-- A node's committed writes: channel name to new value. -/
abbrev NWrites := List (String × Int)

/-- Modelled from the spec: COMMITTING applies buffered writes to the named
channels (LastValue: the written value replaces the channel value). -/
def applyWrites (s : GState) (ws : NWrites) : GState :=
  ws.foldl (fun acc kv =>
    if kv.1 = "foo" then { acc with foo := kv.2 }
    else if kv.1 = "bar" then { acc with bar := kv.2 }
    else if kv.1 = "ra" then { acc with ra := kv.2 }
    else acc) s

/-- A node: its name, its body (returning partial state updates as writes)
and its optional cache policy's key function. -/
structure NodeSpec where
  name : String
  body : GState → NWrites
  cacheKeyFn : Option (GState → String)

/-- A sequential chain graph: nodes, entry point, and the successor map
combining static and conditional edges, evaluated on the committed state
(`none` is `END`). -/
structure GraphSpec where
  nodes : List NodeSpec
  entry : String
  next : String → GState → Option String

/-- One superstep's record: which node ran, whether it was a cache hit,
and the writes committed for it. -/
structure StepLog where
  node : String
  hit : Bool
  writes : NWrites
  deriving DecidableEq

/-- Cache store shared across the run, keyed by `(nodeName, cacheKey)` with
the recorded output writes as value (spec section 3, Cache entry). -/
abbrev CacheStore := List ((String × String) × NWrites)

def lookupCache : CacheStore → (String × String) → Option NWrites
  | [], _ => none
  | e :: rest, k => if e.1 = k then some e.2 else lookupCache rest k

/-- The loop's full state: channel values, the cache store, the superstep
log, and whether the run reached `DONE`. -/
structure EngineState where
  state : GState
  cache : CacheStore
  log : List StepLog
  finished : Bool

/-- Modelled from the spec: the BSP loop — each superstep finds the active
node, performs the section 4.4 cache check (a hit replays the recorded
writes without invoking the body; a miss invokes the body and records its
writes under `(nodeName, key)`), commits the writes, and follows the
successor edge; `none` means the terminal sentinel was reached (`DONE`).
The fuel argument is the recursion limit. -/
def runLoop (g : GraphSpec) : Nat → String → EngineState → EngineState
  | 0, _, es => es
  | fuel + 1, cur, es =>
    match g.nodes.find? (fun n => n.name = cur) with
    | none => es
    | some n =>
      match n.cacheKeyFn with
      | some kf =>
        (match lookupCache es.cache (n.name, kf es.state) with
         | some w =>
            (match g.next cur (applyWrites es.state w) with
             | none => ⟨applyWrites es.state w, es.cache,
                 es.log ++ [⟨n.name, true, w⟩], true⟩
             | some nxt => runLoop g fuel nxt ⟨applyWrites es.state w, es.cache,
                 es.log ++ [⟨n.name, true, w⟩], es.finished⟩)
         | none =>
            (match g.next cur (applyWrites es.state (n.body es.state)) with
             | none => ⟨applyWrites es.state (n.body es.state),
                 es.cache ++ [((n.name, kf es.state), n.body es.state)],
                 es.log ++ [⟨n.name, false, n.body es.state⟩], true⟩
             | some nxt => runLoop g fuel nxt ⟨applyWrites es.state (n.body es.state),
                 es.cache ++ [((n.name, kf es.state), n.body es.state)],
                 es.log ++ [⟨n.name, false, n.body es.state⟩], es.finished⟩))
      | none =>
         (match g.next cur (applyWrites es.state (n.body es.state)) with
          | none => ⟨applyWrites es.state (n.body es.state), es.cache,
              es.log ++ [⟨n.name, false, n.body es.state⟩], true⟩
          | some nxt => runLoop g fuel nxt ⟨applyWrites es.state (n.body es.state),
              es.cache, es.log ++ [⟨n.name, false, n.body es.state⟩], es.finished⟩)

/-- Run a graph from an input state with a fresh cache. -/
def runGraph (g : GraphSpec) (fuel : Nat) (s0 : GState) : EngineState :=
  runLoop g fuel g.entry ⟨s0, [], [], false⟩

/-- Number of times a node's body was actually invoked: the non-hit log
entries for it. -/
def invocations (log : List StepLog) (nm : String) : Nat :=
  (log.filter (fun e => e.node == nm && !e.hit)).length

/-- The graph has the node `N` cached under a constant empty-string key
(every node of that name, so whichever the planner finds). -/
def constKeyNode (g : GraphSpec) (N : String) : Prop :=
  ∀ n ∈ g.nodes, n.name = N → ∃ kf, n.cacheKeyFn = some kf ∧ ∀ s, kf s = ""

/-- Loop invariant for claim C3: once (and only once) the node `N` has run,
the cache holds its writes under `(N, "")`, its body has been invoked
exactly once, and every log entry for `N` carries those same writes. -/
def cacheInv (N : String) (cache : CacheStore) (log : List StepLog) : Prop :=
  match lookupCache cache (N, "") with
  | some w => invocations log N = 1 ∧ ∀ e ∈ log, e.node = N → e.writes = w
  | none => ∀ e ∈ log, e.node ≠ N

theorem lookupCache_append (c : CacheStore) (e : (String × String) × NWrites)
    (k : String × String) :
    lookupCache (c ++ [e]) k =
      (match lookupCache c k with
       | some w => some w
       | none => if e.1 = k then some e.2 else none) := by
  induction c with
  | nil => rfl
  | cons q c ih =>
    by_cases h : q.1 = k
    · simp [lookupCache, h]
    · simp only [List.cons_append, lookupCache, if_neg h, List.append_eq]
      exact ih

theorem invocations_append (l : List StepLog) (e : StepLog) (nm : String) :
    invocations (l ++ [e]) nm = invocations l nm + invocations [e] nm := by
  rw [invocations, invocations, invocations, List.filter_append, List.length_append]

theorem invocations_single_hit (nm : String) (w : NWrites) :
    invocations [⟨nm, true, w⟩] nm = 0 := by
  simp [invocations, List.filter]

theorem invocations_single_miss (nm : String) (w : NWrites) :
    invocations [⟨nm, false, w⟩] nm = 1 := by
  simp [invocations, List.filter]

theorem invocations_single_other (nm : String) (e : StepLog) (h : e.node ≠ nm) :
    invocations [e] nm = 0 := by
  have hb : (e.node == nm) = false := beq_eq_false_iff_ne.mpr h
  simp [invocations, List.filter, hb]

theorem invocations_zero_of_no_node (l : List StepLog) (nm : String)
    (h : ∀ e ∈ l, e.node ≠ nm) : invocations l nm = 0 := by
  rw [invocations, List.length_eq_zero]
  rw [List.filter_eq_nil_iff]
  intro e he
  simp [h e he]

theorem cacheInv_other (N : String) {cache : CacheStore} {log : List StepLog}
    (e : StepLog) (he : e.node ≠ N) (h : cacheInv N cache log) :
    cacheInv N cache (log ++ [e]) := by
  rw [cacheInv] at *
  cases hl : lookupCache cache (N, "") with
  | some w =>
    rw [hl] at h
    refine ⟨?_, ?_⟩
    · rw [invocations_append, invocations_single_other N e he, h.1]
    · intro e2 he2 hn2
      rcases List.mem_append.mp he2 with h2 | h2
      · exact h.2 e2 h2 hn2
      · rw [List.mem_singleton.mp h2] at hn2
        exact absurd hn2 he
  | none =>
    rw [hl] at h
    intro e2 he2
    rcases List.mem_append.mp he2 with h2 | h2
    · exact h e2 h2
    · rw [List.mem_singleton.mp h2]
      exact he

theorem cacheInv_other_cache (N : String) {cache : CacheStore} {log : List StepLog}
    (ce : (String × String) × NWrites) (hk : ce.1.1 ≠ N) (h : cacheInv N cache log) :
    cacheInv N (cache ++ [ce]) log := by
  rw [cacheInv] at *
  rw [lookupCache_append]
  cases hl : lookupCache cache (N, "") with
  | some w => rw [hl] at h; exact h
  | none =>
    rw [hl] at h
    rw [if_neg (fun hce => hk (by rw [hce]))]
    exact h

theorem cacheInv_hit (N : String) {cache : CacheStore} {log : List StepLog} {w : NWrites}
    (hl : lookupCache cache (N, "") = some w) (h : cacheInv N cache log) :
    cacheInv N cache (log ++ [⟨N, true, w⟩]) := by
  rw [cacheInv] at *
  rw [hl] at h ⊢
  refine ⟨?_, ?_⟩
  · rw [invocations_append, invocations_single_hit, h.1]
  · intro e2 he2 hn2
    rcases List.mem_append.mp he2 with h2 | h2
    · exact h.2 e2 h2 hn2
    · rw [List.mem_singleton.mp h2]

theorem cacheInv_miss (N : String) {cache : CacheStore} {log : List StepLog} (w : NWrites)
    (hl : lookupCache cache (N, "") = none) (h : cacheInv N cache log) :
    cacheInv N (cache ++ [((N, ""), w)]) (log ++ [⟨N, false, w⟩]) := by
  rw [cacheInv] at *
  rw [hl] at h
  rw [lookupCache_append, hl]
  rw [if_pos rfl]
  refine ⟨?_, ?_⟩
  · rw [invocations_append, invocations_single_miss, invocations_zero_of_no_node log N h]
  · intro e2 he2 hn2
    rcases List.mem_append.mp he2 with h2 | h2
    · exact absurd hn2 (h e2 h2)
    · rw [List.mem_singleton.mp h2]

theorem cacheInv_runLoop (g : GraphSpec) (N : String) (hg : constKeyNode g N) :
    ∀ (fuel : Nat) (cur : String) (es : EngineState), cacheInv N es.cache es.log →
      cacheInv N (runLoop g fuel cur es).cache (runLoop g fuel cur es).log := by
  intro fuel
  induction fuel with
  | zero => intro cur es h; exact h
  | succ fuel ih =>
    intro cur es h
    rw [runLoop]
    split
    · exact h
    · next n hfind =>
      have hmem : n ∈ g.nodes := List.mem_of_find?_eq_some hfind
      split
      · next kf hck =>
        by_cases hN : n.name = N
        · obtain ⟨kf0, hkf0, hconst⟩ := hg n hmem hN
          have hkey : kf es.state = "" := by
            rw [hck] at hkf0
            rw [Option.some.inj hkf0]
            exact hconst es.state
          split
          · next w hl =>
            rw [hN, hkey] at hl
            have h2 : cacheInv N es.cache (es.log ++ [⟨n.name, true, w⟩]) := by
              rw [hN]
              exact cacheInv_hit N hl h
            split
            · exact h2
            · next nxt hnext => exact ih nxt _ h2
          · next hl =>
            rw [hN, hkey] at hl
            have h2 : cacheInv N (es.cache ++ [((n.name, kf es.state), n.body es.state)])
                (es.log ++ [⟨n.name, false, n.body es.state⟩]) := by
              rw [hN, hkey]
              exact cacheInv_miss N (n.body es.state) hl h
            split
            · exact h2
            · next nxt hnext => exact ih nxt _ h2
        · split
          · next w hl =>
            have h2 := cacheInv_other N ⟨n.name, true, w⟩ hN h
            split
            · exact h2
            · next nxt hnext => exact ih nxt _ h2
          · next hl =>
            have h2 := cacheInv_other N ⟨n.name, false, n.body es.state⟩ hN
              (cacheInv_other_cache N ((n.name, kf es.state), n.body es.state) hN h)
            split
            · exact h2
            · next nxt hnext => exact ih nxt _ h2
      · next hck =>
        by_cases hN : n.name = N
        · obtain ⟨kf0, hkf0, _⟩ := hg n hmem hN
          rw [hck] at hkf0
          exact Option.noConfusion hkf0
        · have h2 := cacheInv_other N ⟨n.name, false, n.body es.state⟩ hN h
          split
          · exact h2
          · next nxt hnext => exact ih nxt _ h2

/--
C3 (cache law): for every graph containing a node whose cache policy's key
function returns the constant empty string, running the graph from any
input invokes that node's body at most once; if the node is triggered at
all — in particular when it is triggered in two or more supersteps — the
invocation count is exactly 1, every later trigger being a cache hit that
replays the recorded writes without invoking the body; and the committed
writes of every superstep of that node (cache-hit steps included) are
identical to those of the first invocation.
-/
theorem C3_cache_law (g : GraphSpec) (N : String) (fuel : Nat) (s0 : GState)
    (hg : constKeyNode g N) :
    invocations (runGraph g fuel s0).log N ≤ 1 ∧
    ((∃ e ∈ (runGraph g fuel s0).log, e.node = N) →
      invocations (runGraph g fuel s0).log N = 1) ∧
    (∀ e1 ∈ (runGraph g fuel s0).log, ∀ e2 ∈ (runGraph g fuel s0).log,
      e1.node = N → e2.node = N → e1.writes = e2.writes) := by
  have hinv := cacheInv_runLoop g N hg fuel g.entry ⟨s0, [], [], false⟩ (by
    rw [cacheInv]
    exact fun e he => absurd he (List.not_mem_nil e))
  rw [cacheInv] at hinv
  cases hl : lookupCache (runLoop g fuel g.entry ⟨s0, [], [], false⟩).cache (N, "") with
  | some w =>
    rw [hl] at hinv
    refine ⟨le_of_eq hinv.1, fun _ => hinv.1, ?_⟩
    intro e1 h1 e2 h2 hn1 hn2
    rw [hinv.2 e1 h1 hn1, hinv.2 e2 h2 hn2]
  | none =>
    rw [hl] at hinv
    have hz := invocations_zero_of_no_node _ N hinv
    refine ⟨le_of_eq (hz.trans rfl) |>.trans (by omega), ?_, ?_⟩
    · rintro ⟨e, he, hn⟩
      exact absurd hn (hinv e he)
    · intro e1 h1 _ _ hn1 _
      exact absurd hn1 (hinv e1 h1)

/-- Embedding of the `test_call_count` graph of
`src/libs/langgraph/tests/test_cache.py`: `add_two` returns
`{ra: ra + 1}` and is cached with the constant key `""`; `subtract_one`
returns `{foo: foo + 2, ra: ra + 2}`; conditional edge back to `add_two`
while `foo < 10`. -/
def callCountGraph : GraphSpec :=
  { nodes := [
      { name := "add_two", body := fun s => [("ra", s.ra + 1)],
        cacheKeyFn := some (fun _ => "") },
      { name := "subtract_one", body := fun s => [("foo", s.foo + 2), ("ra", s.ra + 2)],
        cacheKeyFn := none } ],
    entry := "add_two",
    next := fun cur s =>
      if cur = "add_two" then some "subtract_one"
      else if cur = "subtract_one" then (if s.foo < 10 then some "add_two" else none)
      else none }

/-- C3 witness: the cache law applied to the `test_call_count` graph, whose
run triggers `add_two` in five supersteps; the concrete run confirms the
invocation count is exactly 1. -/
theorem C3_witness :
    constKeyNode callCountGraph "add_two" ∧
    (invocations (runGraph callCountGraph 100 ⟨1, 1, 1⟩).log "add_two" ≤ 1 ∧
      ((∃ e ∈ (runGraph callCountGraph 100 ⟨1, 1, 1⟩).log, e.node = "add_two") →
        invocations (runGraph callCountGraph 100 ⟨1, 1, 1⟩).log "add_two" = 1) ∧
      (∀ e1 ∈ (runGraph callCountGraph 100 ⟨1, 1, 1⟩).log,
        ∀ e2 ∈ (runGraph callCountGraph 100 ⟨1, 1, 1⟩).log,
          e1.node = "add_two" → e2.node = "add_two" → e1.writes = e2.writes)) ∧
    invocations (runGraph callCountGraph 100 ⟨1, 1, 1⟩).log "add_two" = 1 ∧
    ((runGraph callCountGraph 100 ⟨1, 1, 1⟩).log.filter
      (fun e => e.node == "add_two")).length = 5 :=
  ⟨by
    intro n hn hname
    rcases List.mem_cons.mp hn with rfl | hn2
    · exact ⟨fun _ => "", rfl, fun _ => rfl⟩
    · rcases List.mem_cons.mp hn2 with rfl | hn3
      · exact absurd hname (by decide)
      · exact absurd hn3 (List.not_mem_nil n),
   C3_cache_law callCountGraph "add_two" 100 ⟨1, 1, 1⟩ (by
    intro n hn hname
    rcases List.mem_cons.mp hn with rfl | hn2
    · exact ⟨fun _ => "", rfl, fun _ => rfl⟩
    · rcases List.mem_cons.mp hn2 with rfl | hn3
      · exact absurd hname (by decide)
      · exact absurd hn3 (List.not_mem_nil n)),
   by decide, by decide⟩

/-- Embedding of the second scenario of `test_postgres` in
`src/libs/langgraph/tests/test_cache.py`: `add_two` returns
`{ra: ra + 1}` and is cached with key `str(ra)`; `subtract_one` returns
`{foo: foo + 2, ra: ra + 2}`; static edge `add_two → subtract_one` and
conditional edge back to `add_two` while `foo < 10`, else `END`; entry
point `add_two`; input `{foo: 1, bar: 1, ra: 1}`. -/
def cacheGraph : GraphSpec :=
  { nodes := [
      { name := "add_two", body := fun s => [("ra", s.ra + 1)],
        cacheKeyFn := some (fun s => toString s.ra) },
      { name := "subtract_one", body := fun s => [("foo", s.foo + 2), ("ra", s.ra + 2)],
        cacheKeyFn := none } ],
    entry := "add_two",
    next := fun cur s =>
      if cur = "add_two" then some "subtract_one"
      else if cur = "subtract_one" then (if s.foo < 10 then some "add_two" else none)
      else none }

/--
C4 counterexample.  The claim says the run reaches `DONE` with `foo = 11`
after exactly 4 full `addTwo`/`subtractOne` cycles.  Running the scenario,
`foo` takes the values 1, 3, 5, 7, 9, 11, so `subtract_one` (and likewise
`add_two`) executes in exactly 5 supersteps — 5 full cycles, not 4 (the
conditional edge returns to `addTwo` 4 times).
-/
theorem C4_counterexample :
    ((runGraph cacheGraph 100 ⟨1, 1, 1⟩).log.filter
      (fun e => e.node == "subtract_one")).length = 5 ∧
    ¬ (((runGraph cacheGraph 100 ⟨1, 1, 1⟩).log.filter
      (fun e => e.node == "subtract_one")).length = 4) :=
  ⟨by decide, by decide⟩

/--
C4 amended.  In the two-node scenario graph `addTwo` (ra += 1, cached with
key str(ra)) wired to `subtractOne` (foo += 2, ra += 2) with the
conditional edge back to `addTwo` while foo < 10, started from input
`{foo: 1, bar: 1, ra: 1}`: the first superstep commits `ra = 2`, the
second superstep commits `foo = 3` and `ra = 4`, and the loop continues
until `foo >= 10`, reaching `DONE` with final channel value `foo = 11`
after exactly 5 full `addTwo`/`subtractOne` cycles (10 supersteps; every
`addTwo` step is a cache miss since `ra` differs each time).
-/
theorem C4_amended :
    (runGraph cacheGraph 100 ⟨1, 1, 1⟩).log.head? =
      some ⟨"add_two", false, [("ra", 2)]⟩ ∧
    ((runGraph cacheGraph 100 ⟨1, 1, 1⟩).log.drop 1).head? =
      some ⟨"subtract_one", false, [("foo", 3), ("ra", 4)]⟩ ∧
    (runGraph cacheGraph 100 ⟨1, 1, 1⟩).finished = true ∧
    (runGraph cacheGraph 100 ⟨1, 1, 1⟩).state.foo = 11 ∧
    ((runGraph cacheGraph 100 ⟨1, 1, 1⟩).log.filter
      (fun e => e.node == "add_two")).length = 5 ∧
    ((runGraph cacheGraph 100 ⟨1, 1, 1⟩).log.filter
      (fun e => e.node == "subtract_one")).length = 5 ∧
    (runGraph cacheGraph 100 ⟨1, 1, 1⟩).log.length = 10 ∧
    (runGraph cacheGraph 100 ⟨1, 1, 1⟩).log.all (fun e => !e.hit) = true :=
  ⟨by decide, by decide, by decide, by decide, by decide, by decide, by decide, by decide⟩
